import Mathlib

/-!
Verification of the client-side resilience layer of the attendance mobile app:
the offline queue store (`useOfflineStore` in the zustand store module), the
sync hook (`useOfflineSync`), the integrity-hash helper
(`generateIntegrityHash`), and the axios 401-refresh interceptor
(`src/mobile/src/services/api.ts`, re-exported through `device.service.ts`).

The TypeScript code is shallowly embedded:
* pure store operations become Lean functions over an explicit store state;
* the interleaved asynchronous executions (the single-flight token refresh and
  the queue drains) become small-step state machines whose events are exactly
  the code's `await` suspension points; a schedule is a list of events;
* external capabilities (network delivery, `JSON.parse`, `JSON.stringify` of
  nested values, token exchange results) are oracle parameters;
* JavaScript 32-bit integer operations are modelled on `Int` with explicit
  reduction modulo `2 ^ 32`.
-/

namespace Attendance

/-! ### Constants (`src/mobile/src/utils/constants.ts`) -/

/-- `OFFLINE_CONFIG` from `constants.ts`. -/
structure OfflineConfig where
  MAX_QUEUE_SIZE : Nat
  SYNC_INTERVAL_MS : Nat
  MAX_OFFLINE_PER_SHIFT : Nat

/-- `OFFLINE_CONFIG = { MAX_QUEUE_SIZE: 50, SYNC_INTERVAL_MS: 30000, MAX_OFFLINE_PER_SHIFT: 1 }`. -/
def OFFLINE_CONFIG : OfflineConfig :=
  { MAX_QUEUE_SIZE := 50, SYNC_INTERVAL_MS := 30000, MAX_OFFLINE_PER_SHIFT := 1 }

/-! ### The offline queue store (`useOfflineStore`)

`OfflineRecord` mirrors the TypeScript interface of the same name.  The
`payload` is opaque to every store operation, so it is embedded as a `Nat`
tag; `id` and `createdAt` are the strings the code generates (time + random
suffix and ISO timestamp), supplied here as parameters because they come from
the clock / PRNG. -/

structure OfflineRecord where
  id : String
  payload : Nat
  createdAt : String
  synced : Bool
  syncError : Option String
deriving DecidableEq

/-- The store's persistent/in-memory state: the zustand `queue` plus the value
last written to `secureStorage` under `STORAGE_KEYS.OFFLINE_QUEUE` (decoded
form). -/
structure StoreSt where
  queue : List OfflineRecord
  persisted : List OfflineRecord
deriving DecidableEq

/-- `addToQueue(payload)`: capacity check against
`OFFLINE_CONFIG.MAX_QUEUE_SIZE`; on failure returns `false` without touching
state; on success appends one record with `synced: false`, updates the
in-memory queue and persists the full queue. -/
def addToQueue (st : StoreSt) (payload : Nat) (newId createdAt : String) :
    Bool × StoreSt :=
  if st.queue.length ≥ OFFLINE_CONFIG.MAX_QUEUE_SIZE then
    (false, st)
  else
    let record : OfflineRecord :=
      { id := newId, payload := payload, createdAt := createdAt,
        synced := false, syncError := none }
    let updated := st.queue ++ [record]
    (true, { queue := updated, persisted := updated })

/-- First index whose element satisfies `p` (the JS `Array.findIndex`, with
`-1` rendered as `none`). -/
def firstIdx (p : α → Bool) : List α → Option Nat
  | [] => none
  | a :: as => if p a then some 0 else (firstIdx p as).map (· + 1)

/-- Replace the element at index `i` by `f` of itself (out-of-range is a
no-op), as in `updated[idx] = {...updated[idx], ...}`. -/
def modifyIdx (f : α → α) : Nat → List α → List α
  | _, [] => []
  | 0, a :: as => f a :: as
  | n + 1, a :: as => a :: modifyIdx f n as

/-- Delivery oracle: the outcome of
`attendanceService.syncOfflineRecord(record.payload)` for a given record;
`.error msg` carries `err.response?.data?.detail || 'Sync failed'`. -/
def Deliver : Type := OfflineRecord → Except String Unit

/-- The body of `syncAll`'s `for (const record of pending)` loop.  `cur` is the
`updated` array, `syncedCt`/`failedCt` the two counters and `attempts` an
instrumentation trace of the record ids handed to the delivery call, in
order. -/
def syncAllGo (deliver : Deliver) :
    List OfflineRecord → List OfflineRecord → Nat → Nat → List String →
    List OfflineRecord × Nat × Nat × List String
  | [], cur, syncedCt, failedCt, attempts => (cur, syncedCt, failedCt, attempts)
  | r :: rest, cur, syncedCt, failedCt, attempts =>
    match deliver r with
    | .ok _ =>
      let cur' :=
        match firstIdx (fun r2 => r2.id == r.id) cur with
        | some idx => modifyIdx (fun u => { u with synced := true }) idx cur
        | none => cur
      syncAllGo deliver rest cur' (syncedCt + 1) failedCt (attempts ++ [r.id])
    | .error msg =>
      let cur' :=
        match firstIdx (fun r2 => r2.id == r.id) cur with
        | some idx => modifyIdx (fun u => { u with syncError := some msg }) idx cur
        | none => cur
      syncAllGo deliver rest cur' syncedCt (failedCt + 1) (attempts ++ [r.id])

/-- `syncAll` restricted to its queue transformation: filter the pending
records, walk them in order, return the updated queue with the counters and
the attempt trace. -/
def syncAllQueue (deliver : Deliver) (q : List OfflineRecord) :
    List OfflineRecord × Nat × Nat × List String :=
  let pending := q.filter (fun r => !r.synced)
  if pending.isEmpty then (q, 0, 0, [])
  else syncAllGo deliver pending q 0 0 []

/-- `syncAll` at the store level: on the empty-pending early return nothing is
persisted; otherwise the updated queue is both set in memory and persisted. -/
def syncAllStore (deliver : Deliver) (st : StoreSt) : StoreSt × Nat × Nat :=
  let pending := st.queue.filter (fun r => !r.synced)
  if pending.isEmpty then (st, 0, 0)
  else
    let res := syncAllGo deliver pending st.queue 0 0 []
    ({ queue := res.1, persisted := res.1 }, res.2.1, res.2.2.1)

/-- `clearSynced()`: keep only the not-yet-synced records, set and persist. -/
def clearSynced (st : StoreSt) : StoreSt :=
  let remaining := st.queue.filter (fun r => !r.synced)
  { queue := remaining, persisted := remaining }

/-- `secureStorage.getObject`: `null`/empty raw value gives `null`; otherwise
`JSON.parse` inside `try/catch`, modelled by the partial decoder `parse`
(whose `none` is the caught exception). -/
def getObject (parse : String → Option (List OfflineRecord))
    (raw : Option String) : Option (List OfflineRecord) :=
  match raw with
  | none => none
  | some s => if s.isEmpty then none else parse s

/-- `loadQueue()`: hydrate the in-memory queue from storage; a missing or
undecodable value leaves the store untouched (the `if (stored)` guard). -/
def loadQueue (st : StoreSt) (parse : String → Option (List OfflineRecord))
    (raw : Option String) : StoreSt :=
  match getObject parse raw with
  | some stored => { st with queue := stored }
  | none => st

/-- The store's initial zustand state has `queue: []`. -/
def initialStore : StoreSt := { queue := [], persisted := [] }

/-! ### Queue operations as an abstract op sequence (for the monotonicity
invariant).  `QOp.enq` carries the generated id/timestamp, `QOp.drain` the
delivery oracle of that pass. -/

inductive QOp where
  | enq (payload : Nat) (newId createdAt : String)
  | drain (deliver : Deliver)
  | compact

/-- One operation, restricted to its effect on the queue list. -/
def applyOp (q : List OfflineRecord) : QOp → List OfflineRecord
  | .enq payload newId createdAt =>
    (addToQueue { queue := q, persisted := q } payload newId createdAt).2.queue
  | .drain deliver => (syncAllQueue deliver q).1
  | .compact => q.filter (fun r => !r.synced)

/-- Fold a sequence of operations over a queue. -/
def applyOps (q : List OfflineRecord) : List QOp → List OfflineRecord
  | [] => q
  | op :: ops => applyOps (applyOp q op) ops

/-- The id an operation enqueues, if it is an `enq`. -/
def enqIdOf : QOp → Option String
  | .enq _ newId _ => some newId
  | _ => none

/-- Well-formed op sequences: every enqueued id is fresh for the queue it is
appended to (the code's ids are clock+random generated, hence fresh). -/
def WFOps (q : List OfflineRecord) : List QOp → Bool
  | [] => true
  | op :: ops =>
    (match op with
     | .enq _ newId _ => !(q.map (fun r => r.id)).contains newId
     | _ => true) && WFOps (applyOp q op) ops

/-- The `synced` flag of the (first) record carrying a given id. -/
def lookupSynced (i : String) (q : List OfflineRecord) : Option Bool :=
  (q.find? (fun r => r.id == i)).map (fun r => r.synced)

/-- The update `syncAll` applies to the queue entry `u` matched by the
pending record `p`: `{...u, synced: true}` on success,
`{...u, syncError: msg}` on failure. -/
def applyOutcome (deliver : Deliver) (p u : OfflineRecord) : OfflineRecord :=
  match deliver p with
  | .ok _ => { u with synced := true }
  | .error msg => { u with syncError := some msg }

/-- The per-entry effect of one whole `syncAll` pass (with duplicate-free
ids): already-synced entries are untouched, each pending entry receives its
own delivery outcome. -/
def sfun (deliver : Deliver) (u : OfflineRecord) : OfflineRecord :=
  if u.synced then u else applyOutcome deliver u u

/-- Whether the delivery oracle accepts a record. -/
def isDelivOk (deliver : Deliver) (r : OfflineRecord) : Bool :=
  match deliver r with
  | .ok _ => true
  | .error _ => false

/-- Positionwise relation between a queue and its update by a drain: every
position keeps its record id, and a `synced` flag that was `true` stays
`true`. -/
def PointwiseOK (cur cur' : List OfflineRecord) : Prop :=
  ∀ j : Nat,
    cur'[j]?.map (fun r => r.id) = cur[j]?.map (fun r => r.id)
    ∧ (cur[j]?.map (fun r => r.synced) = some true →
        cur'[j]?.map (fun r => r.synced) = some true)

/-! ### The integrity hash (`generateIntegrityHash` in the helpers module)

The payload is a JavaScript object, embedded as an association list with
duplicate-free keys (JS object keys are unique).  Values are serialized by
`JSON.stringify`, a platform primitive, embedded as the parameter `render`;
the code's own logic — sort the top-level keys, rebuild the object in sorted
key order, stringify, then the 32-bit rolling hash — is mirrored exactly.
String-escaping inside `JSON.stringify` is elided (all modelled keys/values
are escape-free). -/

def lbrace : String := "\x7b"

def rbrace : String := "\x7d"

def dquote : String := "\x22"

def colonStr : String := ":"

def commaStr : String := ","

/-- JS property lookup `payload[key]` on the association-list embedding. -/
def assoc (k : String) (ps : List (String × V)) : Option V :=
  (ps.find? (fun kv => kv.1 == k)).map Prod.snd

/-- `Object.keys(payload).sort()` (lexicographic string sort). -/
def sortedKeys (ps : List (String × V)) : List String :=
  (ps.map Prod.fst).insertionSort (fun a b => a ≤ b)

/-- `JSON.stringify` of the key-sorted rebuilt object: the keys in sorted
order, each rendered as `"key":value` with the value serialized by
`render`. -/
def integrityData (render : V → String) (ps : List (String × V)) : String :=
  lbrace ++
    String.intercalate commaStr
      ((sortedKeys ps).filterMap fun k =>
        (assoc k ps).map fun v => dquote ++ k ++ dquote ++ colonStr ++ render v) ++
    rbrace

/-- JavaScript 32-bit wrap-around (`| 0`): reduce modulo `2 ^ 32` into
`[-2 ^ 31, 2 ^ 31)`. -/
def toInt32 (x : Int) : Int :=
  let m := x % 4294967296
  if m ≥ 2147483648 then m - 4294967296 else m

/-- One step of the loop: `hash = (hash << 5) - hash + char; hash |= 0`. -/
def rollStep (h : Int) (c : Char) : Int :=
  toInt32 (toInt32 (h * 32) - h + (c.toNat : Int))

/-- The rolling hash over the serialized data. -/
def rollHash32 (s : String) : Int :=
  s.data.foldl rollStep 0

/-- `n.toString(16)` (lowercase hex). -/
def natToHex (n : Nat) : String :=
  String.mk (Nat.toDigits 16 n)

/-- `.padStart(16, '0')`. -/
def padStart16 (s : String) : String :=
  String.mk (List.replicate (16 - s.length) '0') ++ s

/-- `generateIntegrityHash(payload)`:
`Math.abs(hash).toString(16).padStart(16, '0')` over the rolling hash of the
sorted-key serialization. -/
def generateIntegrityHash (render : V → String) (ps : List (String × V)) :
    String :=
  padStart16 (natToHex (rollHash32 (integrityData render ps)).natAbs)

/-- `JSON.stringify` of a flat integer-valued object in insertion order —
the behaviour of the primitive on a nested object value, used to instantiate
`render` on concrete inputs. -/
def renderFlat (fs : List (String × Int)) : String :=
  lbrace ++
    String.intercalate commaStr
      (fs.map fun kv => dquote ++ kv.1 ++ dquote ++ colonStr ++ toString kv.2) ++
    rbrace

/-! ### The request gateway: the axios response interceptor

Small-step machine for the 401/refresh interceptor of
`src/mobile/src/services/api.ts` (imported by `device.service.ts`).  The
runtime is a single-threaded event loop, so atomic steps are exactly the
synchronous stretches between `await`s:

* `handle c` — call `c`'s rejected-response handler runs: pass-through when
  `_retry` is already set, park on `failedQueue` when `isRefreshing`,
  otherwise set `_retry` and `isRefreshing` and start the refresh coroutine;
* `tokRead` — `await secureStorage.get(REFRESH_TOKEN)` resolves; a missing
  token throws into the catch block, which runs `processQueue(error)`
  synchronously;
* `exchOk` / `exchFail` — the `axios.post('/auth/token/refresh/')` exchange
  settles; on rejection `processQueue(error)` runs synchronously;
* `persistDone` — `await secureStorage.set(ACCESS_TOKEN)` resolves, then
  `processQueue(null, access)`, the replay of the initiating request and the
  `finally { isRefreshing = false }` all run synchronously;
* `clearDone1` / `clearDone2` — the two `secureStorage.remove` awaits of the
  catch block resolve; after the second the initiating call is rejected with
  the refresh error and `finally` resets the flag;
* `replayOk c` / `replay401 c` / `replayErr c` — the replayed request
  `api(originalRequest)` settles.

Tokens are embedded as `Nat`.  `exchCount` counts issued refresh exchanges
and `CallSt.replays` counts how often a call was re-issued
(instrumentation). -/

/-- Classification of a rejection value: an authentication error (a 401 /
`No refresh token`), a transport failure, or anything else. -/
inductive ErrKind where
  | auth
  | net
  | other
deriving DecidableEq

/-- Where a wrapped call stands.  `idle` marks indices not participating. -/
inductive CStatus where
  | idle
  | pend401
  | parked
  | awaitingRefresh
  | replaying
  | ok
  | failed (k : ErrKind)
deriving DecidableEq

/-- Per-call state: the `_retry` annotation on the request config, the call's
status, and how many times it has been (re-)issued. -/
structure CallSt where
  retry : Bool
  status : CStatus
  replays : Nat
deriving DecidableEq

/-- The refresh coroutine's suspension points. -/
inductive RPhase where
  | gettingTok
  | exchanging
  | persisting (tok : Nat)
  | clearing1 (k : ErrKind)
  | clearing2 (k : ErrKind)
deriving DecidableEq

/-- One live instance of the refresh coroutine (initiating call + phase). -/
structure RTask where
  initiator : Nat
  phase : RPhase
deriving DecidableEq

/-- Global interceptor state: the module-level `isRefreshing` flag and
`failedQueue` wait-list, the live refresh coroutines, the per-call states,
the two persisted tokens and the exchange counter. -/
structure GSt where
  isRefreshing : Bool
  failedQueue : List Nat
  tasks : List RTask
  calls : Nat → CallSt
  accessTok : Option Nat
  refreshTok : Option Nat
  exchCount : Nat

/-- Events of the machine: one per atomic step. -/
inductive GEv where
  | handle (c : Nat)
  | tokRead
  | exchOk (t : Nat)
  | exchFail (k : ErrKind)
  | persistDone
  | clearDone1
  | clearDone2
  | replayOk (c : Nat)
  | replay401 (c : Nat)
  | replayErr (c : Nat) (k : ErrKind)

/-- Point update of the call table. -/
def setCall (f : Nat → CallSt) (c : Nat) (v : CallSt) : Nat → CallSt :=
  fun d => if d = c then v else f d

/-- `processQueue(error)`: reject every parked caller with the refresh
error. -/
def rejectParked (f : Nat → CallSt) (q : List Nat) (k : ErrKind) :
    Nat → CallSt :=
  q.foldl (fun g c => setCall g c { g c with status := .failed k }) f

/-- `processQueue(null, token)`: each parked caller's continuation re-issues
its original request (`resolve(api(originalRequest))`), with its `_retry`
flag untouched. -/
def resolveParked (f : Nat → CallSt) (q : List Nat) : Nat → CallSt :=
  q.foldl
    (fun g c =>
      setCall g c { g c with status := .replaying, replays := (g c).replays + 1 })
    f

/-- One atomic step of the interceptor machine.  Events whose guard does not
hold (a handler for a call that is not pending, a settle for an absent
coroutine phase) leave the state unchanged. -/
def gstep (s : GSt) : GEv → GSt
  | .handle c =>
    let cs := s.calls c
    if cs.status = .pend401 then
      if cs.retry then
        { s with calls := setCall s.calls c { cs with status := .failed .auth } }
      else if s.isRefreshing then
        { s with
          calls := setCall s.calls c { cs with status := .parked },
          failedQueue := s.failedQueue ++ [c] }
      else
        { s with
          calls := setCall s.calls c
            { cs with retry := true, status := .awaitingRefresh },
          isRefreshing := true,
          tasks := s.tasks ++ [{ initiator := c, phase := .gettingTok }] }
    else s
  | .tokRead =>
    match s.tasks with
    | { initiator := i, phase := .gettingTok } :: rest =>
      match s.refreshTok with
      | some _ =>
        { s with
          tasks := { initiator := i, phase := .exchanging } :: rest,
          exchCount := s.exchCount + 1 }
      | none =>
        { s with
          calls := rejectParked s.calls s.failedQueue .auth,
          failedQueue := [],
          tasks := { initiator := i, phase := .clearing1 .auth } :: rest }
    | _ => s
  | .exchOk t =>
    match s.tasks with
    | { initiator := i, phase := .exchanging } :: rest =>
      { s with tasks := { initiator := i, phase := .persisting t } :: rest }
    | _ => s
  | .exchFail k =>
    match s.tasks with
    | { initiator := i, phase := .exchanging } :: rest =>
      { s with
        calls := rejectParked s.calls s.failedQueue k,
        failedQueue := [],
        tasks := { initiator := i, phase := .clearing1 k } :: rest }
    | _ => s
  | .persistDone =>
    match s.tasks with
    | { initiator := i, phase := .persisting t } :: rest =>
      let calls1 := resolveParked s.calls s.failedQueue
      let ci := calls1 i
      { s with
        accessTok := some t,
        calls := setCall calls1 i
          { ci with status := .replaying, replays := ci.replays + 1 },
        failedQueue := [],
        tasks := rest,
        isRefreshing := false }
    | _ => s
  | .clearDone1 =>
    match s.tasks with
    | { initiator := i, phase := .clearing1 k } :: rest =>
      { s with
        accessTok := none,
        tasks := { initiator := i, phase := .clearing2 k } :: rest }
    | _ => s
  | .clearDone2 =>
    match s.tasks with
    | { initiator := i, phase := .clearing2 k } :: rest =>
      { s with
        refreshTok := none,
        calls := setCall s.calls i { s.calls i with status := .failed k },
        tasks := rest,
        isRefreshing := false }
    | _ => s
  | .replayOk c =>
    if (s.calls c).status = .replaying then
      { s with calls := setCall s.calls c { s.calls c with status := .ok } }
    else s
  | .replay401 c =>
    if (s.calls c).status = .replaying then
      { s with calls := setCall s.calls c { s.calls c with status := .pend401 } }
    else s
  | .replayErr c k =>
    if (s.calls c).status = .replaying then
      { s with calls := setCall s.calls c { s.calls c with status := .failed k } }
    else s

/-- Run a schedule. -/
def grun (s : GSt) : List GEv → GSt
  | [] => s
  | e :: es => grun (gstep s e) es

/-- A participating call that has just received its first 401. -/
def initCall : CallSt := { retry := false, status := .pend401, replays := 0 }

/-- A non-participating call slot. -/
def idleCall : CallSt := { retry := false, status := .idle, replays := 0 }

/-- Initial state of the N-concurrent-401 scenario: `N` calls have each just
received an authentication failure, both tokens are present, no refresh is in
flight. -/
def initN (N : Nat) : GSt :=
  { isRefreshing := false, failedQueue := [], tasks := [],
    calls := fun c => if c < N then initCall else idleCall,
    accessTok := some 0, refreshTok := some 0, exchCount := 0 }

/-- Number of refresh exchanges currently outstanding (coroutines suspended
in the `axios.post` to `/auth/token/refresh/`). -/
def exchangingCount (s : GSt) : Nat :=
  (s.tasks.filter (fun t => t.phase = .exchanging)).length

/-- Number of live refresh coroutines with a `gettingTok` suspension. -/
def gettingCount (s : GSt) : Nat :=
  (s.tasks.filter (fun t => t.phase = .gettingTok)).length

/-- Structural well-formedness tying the `isRefreshing` flag to the live
coroutines: the flag is set while a refresh coroutine is between its start
and its `finally`, and every coroutine start is guarded by the flag. -/
def GWF (s : GSt) : Prop :=
  s.tasks.length ≤ 1 ∧ (s.isRefreshing ↔ s.tasks ≠ [])

/-- The calls of `cs` all parked on the wait-list. -/
def parkAll (f : Nat → CallSt) (cs : List Nat) : Nat → CallSt :=
  fun d => if d ∈ cs then { f d with status := .parked } else f d

/-- The calls of `l` all resolved successfully. -/
def okAll (f : Nat → CallSt) (l : List Nat) : Nat → CallSt :=
  fun d => if d ∈ l then { f d with status := .ok } else f d

/-- Call table after the N-concurrent-401 scenario's handlers have all run:
`c0` initiated the refresh, the calls of `cs` parked. -/
def midCalls (N c0 : Nat) (cs : List Nat) : Nat → CallSt :=
  parkAll (setCall (initN N).calls c0
    { retry := true, status := .awaitingRefresh, replays := 0 }) cs

/-- Machine state after all `N` handlers ran: one refresh coroutine about
to read the stored refresh token, everyone else parked. -/
def midSt (N c0 : Nat) (cs : List Nat) : GSt :=
  { isRefreshing := true, failedQueue := cs,
    tasks := [{ initiator := c0, phase := .gettingTok }],
    calls := midCalls N c0 cs,
    accessTok := some 0, refreshTok := some 0, exchCount := 0 }

/-- Call table after the single successful exchange was processed: every
parked call and the initiator are replaying with the new token. -/
def postCalls (N c0 : Nat) (cs : List Nat) : Nat → CallSt :=
  setCall (resolveParked (midCalls N c0 cs) cs) c0
    { resolveParked (midCalls N c0 cs) cs c0 with
      status := .replaying,
      replays := (resolveParked (midCalls N c0 cs) cs c0).replays + 1 }

/-- Machine state right after `persistDone` of the single refresh. -/
def postSt (N c0 : Nat) (cs : List Nat) (t : Nat) : GSt :=
  { isRefreshing := false, failedQueue := [], tasks := [],
    calls := postCalls N c0 cs,
    accessTok := some t, refreshTok := some 0, exchCount := 1 }

/-- Invariant for the benign continuation of the scenario: at most one
exchange has been issued or is about to be (one coroutine still before its
token read), and no handler is pending — so no second refresh can start. -/
def P1 (s : GSt) : Prop :=
  s.exchCount + gettingCount s ≤ 1
  ∧ ∀ c, (s.calls c).status ≠ .pend401

/-! ### Interleaved `syncAll` invocations

Small-step machine for concurrent executions of the store's `syncAll` (the
drain).  The hook `useOfflineSync` calls it from a 30-second interval timer,
from the offline→online connectivity edge, and from explicit `syncNow`; all
three simply invoke `syncAll` on the shared store.  One invocation's atomic
steps are:

* `invoke` — the synchronous prefix: read the queue, filter the pending
  records, return immediately if none, otherwise set `isSyncing`, snapshot
  `updated = [...queue]` and enter the loop (the first `await` is the
  delivery call);
* `deliver tid ok` — invocation `tid`'s pending delivery settles with
  outcome `ok`; the loop body runs synchronously and either suspends on the
  next delivery or — after the last record — runs
  `set({queue, isSyncing: false, lastSyncAt})`, persists and returns.

`deliveries` traces the ids handed to `syncOfflineRecord`, in order. -/

/-- Events of the interleaved-drain machine. -/
inductive DEv where
  | invoke
  | deliver (tid : Nat) (ok : Bool)

/-- The fallback error string recorded on a failed delivery
(`'Sync failed'`); the detail message carried by a rejection is irrelevant to
the concurrency claims, so failed deliveries all record this one. -/
def defaultSyncError : String := "Sync failed"

/-- One live `syncAll` invocation past its prefix: the records still to
attempt, its private `updated` snapshot and its two counters. -/
structure DrainTask where
  rest : List OfflineRecord
  updatedQ : List OfflineRecord
  syncedCt : Nat
  failedCt : Nat
deriving DecidableEq

/-- Shared state for interleaved drains.  `tasks` slots are `none` once an
invocation returned (indices stay stable), `finished` collects the returned
`{synced, failed}` pairs. -/
structure SyncSt where
  queue : List OfflineRecord
  persisted : List OfflineRecord
  isSyncing : Bool
  tasks : List (Option DrainTask)
  deliveries : List String
  finished : List (Nat × Nat)
deriving DecidableEq

/-- Number of drain invocations currently running (past the prefix, not yet
returned). -/
def activeDrains (s : SyncSt) : Nat :=
  (s.tasks.filter Option.isSome).length

/-- The loop body's queue update for one settled delivery. -/
def drainApply (ok : Bool) (r : OfflineRecord) (cur : List OfflineRecord) :
    List OfflineRecord :=
  match firstIdx (fun r2 => r2.id == r.id) cur with
  | some idx =>
    if ok then modifyIdx (fun u => { u with synced := true }) idx cur
    else modifyIdx (fun u => { u with syncError := some defaultSyncError }) idx cur
  | none => cur

/-- One atomic step of the interleaved-drain machine. -/
def dstep (s : SyncSt) : DEv → SyncSt
  | .invoke =>
    let pending := s.queue.filter (fun r => !r.synced)
    if pending.isEmpty then s
    else
      { s with
        isSyncing := true,
        tasks := s.tasks ++
          [some { rest := pending, updatedQ := s.queue, syncedCt := 0,
                  failedCt := 0 }] }
  | .deliver tid ok =>
    match s.tasks.get? tid with
    | some (some task) =>
      match task.rest with
      | [] => s
      | r :: rest' =>
        let updated' := drainApply ok r task.updatedQ
        let syncedCt' := if ok then task.syncedCt + 1 else task.syncedCt
        let failedCt' := if ok then task.failedCt else task.failedCt + 1
        if rest'.isEmpty then
          { s with
            queue := updated',
            persisted := updated',
            isSyncing := false,
            tasks := s.tasks.set tid none,
            deliveries := s.deliveries ++ [r.id],
            finished := s.finished ++ [(syncedCt', failedCt')] }
        else
          { s with
            tasks := s.tasks.set tid
              (some { rest := rest', updatedQ := updated',
                      syncedCt := syncedCt', failedCt := failedCt' }),
            deliveries := s.deliveries ++ [r.id] }
    | _ => s

/-- Run a drain schedule. -/
def drun (s : SyncSt) : List DEv → SyncSt
  | [] => s
  | e :: es => drun (dstep s e) es

/-! ### Concrete fixtures used by witnesses and counterexamples -/

/-- A record id used in concrete runs. -/
def r1id : String := "r1"

/-- A timestamp used in concrete runs. -/
def ts0 : String := "t0"

/-- A single not-yet-synced queued record. -/
def drainRec1 : OfflineRecord :=
  { id := r1id, payload := 0, createdAt := ts0, synced := false,
    syncError := none }

/-- Drain-machine start state: one pending record, no drain running. -/
def drainInit : SyncSt :=
  { queue := [drainRec1], persisted := [drainRec1], isSyncing := false,
    tasks := [], deliveries := [], finished := [] }

/-- A store whose queue already holds `MAX_QUEUE_SIZE` records. -/
def fullStore50 : StoreSt :=
  let q := (List.range OFFLINE_CONFIG.MAX_QUEUE_SIZE).map fun n =>
    { id := toString n, payload := 0, createdAt := ts0, synced := false,
      syncError := none }
  { queue := q, persisted := q }

/-- A schedule on which a parked call, replayed after the first refresh,
receives a second 401 and then starts a second refresh cycle of its own:
call 0 initiates the first refresh, call 1 parks; after the successful
refresh call 1's replay is rejected with 401 again and — its `_retry` flag
never having been set — call 1 initiates refresh number two. -/
def c4sched : List GEv :=
  [.handle 0, .handle 1, .tokRead, .exchOk 5, .persistDone,
   .replay401 1, .handle 1, .tokRead, .exchOk 6, .persistDone, .replayOk 1]

/-- A mid-refresh gateway state: call 0 initiated the refresh (exchange in
flight), call 1 is parked on the wait-list. -/
def c5wSt : GSt :=
  { isRefreshing := true, failedQueue := [1],
    tasks := [{ initiator := 0, phase := .exchanging }],
    calls := fun c =>
      if c = 0 then { retry := true, status := .awaitingRefresh, replays := 0 }
      else if c = 1 then { retry := false, status := .parked, replays := 0 }
      else idleCall,
    accessTok := some 3, refreshTok := some 0, exchCount := 1 }

/-- A gateway state with one call whose `_retry` flag is already set and
which has just received another 401. -/
def c4wSt : GSt :=
  { isRefreshing := false, failedQueue := [], tasks := [],
    calls := fun c =>
      if c = 0 then { retry := true, status := .pend401, replays := 1 }
      else idleCall,
    accessTok := some 3, refreshTok := some 0, exchCount := 1 }

/-- A non-JSON storage value. -/
def badRaw : String := "corrupt"

/-- Key fixtures for the integrity-hash runs. -/
def ka : String := "a"

def kb : String := "b"

def kx : String := "x"

def ky : String := "y"

/-- A nested object value with fields inserted as `x` then `y`. -/
def c8fields1 : List (String × Int) := [(kx, 1), (ky, 2)]

/-- The same field/value pairs inserted as `y` then `x`. -/
def c8fields2 : List (String × Int) := [(ky, 2), (kx, 1)]

/-- Payload whose single key `a` holds the nested object `c8fields1`. -/
def c8p1 : List (String × List (String × Int)) := [(ka, c8fields1)]

/-- Payload whose single key `a` holds the nested object `c8fields2`. -/
def c8p2 : List (String × List (String × Int)) := [(ka, c8fields2)]

/-- Integer rendering used to instantiate `render` on flat payloads. -/
def renderInt (n : Int) : String := toString n

/-- A two-key flat payload, keys inserted as `b` then `a`. -/
def c8w1 : List (String × Int) := [(kb, 0), (ka, 1)]

/-- The same pairs inserted as `a` then `b`. -/
def c8w2 : List (String × Int) := [(ka, 1), (kb, 0)]

/-- An already-synced record with id `a`. -/
def wRecA : OfflineRecord :=
  { id := ka, payload := 0, createdAt := ts0, synced := true,
    syncError := none }

/-- A pending record with id `b` whose delivery will succeed. -/
def wRecB : OfflineRecord :=
  { id := kb, payload := 1, createdAt := ts0, synced := false,
    syncError := none }

/-- A pending record with id `x` whose delivery will fail. -/
def wRecC : OfflineRecord :=
  { id := kx, payload := 2, createdAt := ts0, synced := false,
    syncError := none }

/-- A concrete delivery oracle: accepts payload 1, rejects everything
else. -/
def wDeliver : Deliver :=
  fun r => if r.payload = 1 then .ok () else .error defaultSyncError

/-- A concrete three-record queue (one already synced, two pending). -/
def wQ : List OfflineRecord := [wRecA, wRecB, wRecC]

/-- A gateway state with a refresh in flight and a fresh 401 for call 2
whose handler has not yet run. -/
def c4pSt : GSt :=
  { c5wSt with
    calls := fun c =>
      if c = 2 then { retry := false, status := .pend401, replays := 0 }
      else c5wSt.calls c }

/-! ## Lemmas -/

theorem setCall_self (f : Nat → CallSt) (c : Nat) (v : CallSt) :
    setCall f c v c = v := by
  simp [setCall]

theorem setCall_other (f : Nat → CallSt) (c d : Nat) (v : CallSt)
    (h : d ≠ c) : setCall f c v d = f d := by
  simp [setCall, h]

theorem rejectParked_not_mem (k : ErrKind) (c : Nat) :
    ∀ (q : List Nat) (f : Nat → CallSt), c ∉ q →
      rejectParked f q k c = f c := by
  intro q
  induction q with
  | nil => intro f _; rfl
  | cons a q ih =>
    intro f hc
    have hca : c ≠ a := fun h => hc (h ▸ List.mem_cons_self a q)
    have hcq : c ∉ q := fun h => hc (List.mem_cons_of_mem a h)
    show rejectParked (setCall f a _) q k c = f c
    rw [ih _ hcq, setCall_other _ _ _ _ hca]

theorem rejectParked_mem (k : ErrKind) (c : Nat) :
    ∀ (q : List Nat) (f : Nat → CallSt), c ∈ q →
      rejectParked f q k c = { f c with status := .failed k } := by
  intro q
  induction q with
  | nil => intro f h; cases h
  | cons a q ih =>
    intro f hc
    show rejectParked (setCall f a { f a with status := .failed k }) q k c = _
    by_cases hcq : c ∈ q
    · rw [ih _ hcq]
      by_cases hca : c = a
      · subst hca; rw [setCall_self]
      · rw [setCall_other _ _ _ _ hca]
    · have hca : c = a := by
        rcases List.mem_cons.mp hc with h | h
        · exact h
        · exact absurd h hcq
      subst hca
      rw [rejectParked_not_mem _ _ _ _ hcq, setCall_self]

theorem resolveParked_not_mem (c : Nat) :
    ∀ (q : List Nat) (f : Nat → CallSt), c ∉ q →
      resolveParked f q c = f c := by
  intro q
  induction q with
  | nil => intro f _; rfl
  | cons a q ih =>
    intro f hc
    have hca : c ≠ a := fun h => hc (h ▸ List.mem_cons_self a q)
    have hcq : c ∉ q := fun h => hc (List.mem_cons_of_mem a h)
    show resolveParked (setCall f a _) q c = f c
    rw [ih _ hcq, setCall_other _ _ _ _ hca]

theorem resolveParked_mem (c : Nat) :
    ∀ (q : List Nat) (f : Nat → CallSt), q.Nodup → c ∈ q →
      resolveParked f q c
        = { f c with status := .replaying, replays := (f c).replays + 1 } := by
  intro q
  induction q with
  | nil => intro f _ h; cases h
  | cons a q ih =>
    intro f hnd hc
    have hand := List.nodup_cons.mp hnd
    show resolveParked (setCall f a _) q c = _
    by_cases hca : c = a
    · subst hca
      rw [resolveParked_not_mem _ _ _ hand.1, setCall_self]
    · have hcq : c ∈ q := by
        rcases List.mem_cons.mp hc with h | h
        · exact absurd h hca
        · exact h
      rw [ih _ hand.2 hcq, setCall_other _ _ _ _ hca]

theorem clearTail (s' : GSt) (i : Nat) (k : ErrKind) (ts : List RTask)
    (hT : s'.tasks = { initiator := i, phase := .clearing1 k } :: ts) :
    grun s' [.clearDone1, .clearDone2]
      = { s' with
          accessTok := none, refreshTok := none,
          calls := setCall s'.calls i { s'.calls i with status := .failed k },
          tasks := ts, isRefreshing := false } := by
  have h1 : gstep s' .clearDone1
      = { s' with
          accessTok := none,
          tasks := { initiator := i, phase := .clearing2 k } :: ts } := by
    simp [gstep, hT]
  have h2 : gstep { s' with
      accessTok := none,
      tasks := { initiator := i, phase := RPhase.clearing2 k } :: ts }
        .clearDone2
      = { s' with
          accessTok := none, refreshTok := none,
          calls := setCall s'.calls i { s'.calls i with status := .failed k },
          tasks := ts, isRefreshing := false } := by
    simp [gstep]
  simp [grun, h1, h2]

theorem modifyIdx_length (f : α → α) :
    ∀ (n : Nat) (l : List α), (modifyIdx f n l).length = l.length := by
  intro n l
  induction l generalizing n with
  | nil => cases n <;> rfl
  | cons a as ih =>
    cases n with
    | zero => rfl
    | succ m => simp [modifyIdx, ih]

theorem getElem?_modifyIdx_self (f : α → α) :
    ∀ (n : Nat) (l : List α), (modifyIdx f n l)[n]? = l[n]?.map f := by
  intro n l
  induction l generalizing n with
  | nil => cases n <;> rfl
  | cons a as ih =>
    cases n with
    | zero => simp [modifyIdx]
    | succ m => simpa [modifyIdx] using ih m

theorem getElem?_modifyIdx_other (f : α → α) :
    ∀ (n m : Nat) (l : List α), m ≠ n → (modifyIdx f n l)[m]? = l[m]? := by
  intro n m l
  induction l generalizing n m with
  | nil => intro _; cases n <;> rfl
  | cons a as ih =>
    intro h
    cases n with
    | zero =>
      cases m with
      | zero => exact absurd rfl h
      | succ m' => simp [modifyIdx]
    | succ n' =>
      cases m with
      | zero => simp [modifyIdx]
      | succ m' =>
        simpa [modifyIdx] using ih n' m' (fun e => h (by rw [e]))

theorem map_id_modifyIdx (g : OfflineRecord → OfflineRecord)
    (hid : ∀ u, (g u).id = u.id) (idx : Nat) (cur : List OfflineRecord) :
    (modifyIdx g idx cur).map (fun r => r.id) = cur.map (fun r => r.id) := by
  apply List.ext_getElem?
  intro j
  rw [List.getElem?_map, List.getElem?_map]
  by_cases hj : j = idx
  · subst hj
    rw [getElem?_modifyIdx_self]
    cases cur[j]? with
    | none => rfl
    | some u => simp [hid]
  · rw [getElem?_modifyIdx_other _ _ _ _ hj]

theorem firstIdx_nodup_mem (p : OfflineRecord) :
    ∀ (cur : List OfflineRecord), (cur.map (fun r => r.id)).Nodup → p ∈ cur →
    ∃ j, firstIdx (fun r2 => r2.id == p.id) cur = some j ∧ cur[j]? = some p := by
  intro cur
  induction cur with
  | nil => intro _ h; cases h
  | cons u tl ih =>
    intro hnd hmem
    rw [List.map_cons] at hnd
    have hnd' := List.nodup_cons.mp hnd
    by_cases hu : (u.id == p.id) = true
    · have hup : u = p := by
        rcases List.mem_cons.mp hmem with h | h
        · exact h.symm
        · exfalso
          apply hnd'.1
          have he : u.id = p.id := by simpa using hu
          rw [he]
          exact List.mem_map_of_mem (fun r => r.id) h
      refine ⟨0, by simp [firstIdx, hu], by simp [hup]⟩
    · have hne : u ≠ p := fun e => hu (by rw [e]; simp)
      have hptl : p ∈ tl := by
        rcases List.mem_cons.mp hmem with h | h
        · exact absurd h.symm hne
        · exact h
      obtain ⟨j, hj1, hj2⟩ := ih hnd'.2 hptl
      exact ⟨j + 1, by simp [firstIdx, hu, hj1], by simpa using hj2⟩

theorem nodup_ids_ne :
    ∀ (lst : List String), lst.Nodup → ∀ (j j' : Nat) (a b : String),
      j ≠ j' → lst[j]? = some a → lst[j']? = some b → a ≠ b := by
  intro lst
  induction lst with
  | nil =>
    intro _ j _ _ _ _ h
    cases j <;> simp at h
  | cons x tl ih =>
    intro hnd j j' a b hjj ha hb
    rcases List.nodup_cons.mp hnd with ⟨hx, htl⟩
    cases j with
    | zero =>
      cases j' with
      | zero => exact absurd rfl hjj
      | succ j'' =>
        simp only [List.getElem?_cons_zero, Option.some.injEq] at ha
        have hbtl : b ∈ tl := List.getElem?_mem (by simpa using hb)
        intro hab
        exact hx (by rw [ha, hab]; exact hbtl)
    | succ j'' =>
      cases j' with
      | zero =>
        simp only [List.getElem?_cons_zero, Option.some.injEq] at hb
        have hatl : a ∈ tl := List.getElem?_mem (by simpa using ha)
        intro hab
        exact hx (by rw [hb, ← hab]; exact hatl)
      | succ j''' =>
        exact ih htl j'' j''' a b (fun e => hjj (by rw [e]))
          (by simpa using ha) (by simpa using hb)

theorem pointwiseOK_refl (cur : List OfflineRecord) : PointwiseOK cur cur :=
  fun _ => ⟨rfl, fun h => h⟩

theorem pointwiseOK_trans {a b c : List OfflineRecord}
    (h1 : PointwiseOK a b) (h2 : PointwiseOK b c) : PointwiseOK a c :=
  fun j => ⟨((h2 j).1.trans (h1 j).1), fun h => (h2 j).2 ((h1 j).2 h)⟩

theorem pointwiseOK_modify (g : OfflineRecord → OfflineRecord)
    (hid : ∀ u, (g u).id = u.id)
    (hsy : ∀ u, (g u).synced = true ∨ (g u).synced = u.synced)
    (idx : Nat) (cur : List OfflineRecord) :
    PointwiseOK cur (modifyIdx g idx cur) := by
  intro j
  by_cases hj : j = idx
  · subst hj
    rw [getElem?_modifyIdx_self]
    cases hc : cur[j]? with
    | none => exact ⟨rfl, by simp⟩
    | some u =>
      refine ⟨by simp [hid], ?_⟩
      intro h
      have hu : u.synced = true := by simpa using h
      rcases hsy u with h' | h' <;> simp [h', hu]
  · rw [getElem?_modifyIdx_other _ _ _ _ hj]
    exact ⟨rfl, fun h => h⟩

theorem syncAllGo_pointwiseOK (d : Deliver) :
    ∀ (pending cur : List OfflineRecord) (s f : Nat) (a : List String),
      PointwiseOK cur (syncAllGo d pending cur s f a).1 := by
  intro pending
  induction pending with
  | nil => intro cur s f a; exact pointwiseOK_refl cur
  | cons r rest ih =>
    intro cur s f a
    cases hd : d r with
    | ok u =>
      cases hfi : firstIdx (fun r2 => r2.id == r.id) cur with
      | none => simpa [syncAllGo, hd, hfi] using ih cur (s + 1) f (a ++ [r.id])
      | some idx =>
        have hstep : syncAllGo d (r :: rest) cur s f a
            = syncAllGo d rest
                (modifyIdx (fun u => { u with synced := true }) idx cur)
                (s + 1) f (a ++ [r.id]) := by
          simp [syncAllGo, hd, hfi]
        rw [hstep]
        exact pointwiseOK_trans
          (pointwiseOK_modify (fun u => { u with synced := true })
            (fun _ => rfl) (fun _ => Or.inl rfl) idx cur)
          (ih _ (s + 1) f (a ++ [r.id]))
    | error msg =>
      cases hfi : firstIdx (fun r2 => r2.id == r.id) cur with
      | none => simpa [syncAllGo, hd, hfi] using ih cur s (f + 1) (a ++ [r.id])
      | some idx =>
        have hstep : syncAllGo d (r :: rest) cur s f a
            = syncAllGo d rest
                (modifyIdx (fun u => { u with syncError := some msg }) idx cur)
                s (f + 1) (a ++ [r.id]) := by
          simp [syncAllGo, hd, hfi]
        rw [hstep]
        exact pointwiseOK_trans
          (pointwiseOK_modify (fun u => { u with syncError := some msg })
            (fun _ => rfl) (fun _ => Or.inr rfl) idx cur)
          (ih _ s (f + 1) (a ++ [r.id]))

theorem syncAllGo_length (d : Deliver) :
    ∀ (pending cur : List OfflineRecord) (s f : Nat) (a : List String),
      (syncAllGo d pending cur s f a).1.length = cur.length := by
  intro pending
  induction pending with
  | nil => intro cur s f a; rfl
  | cons r rest ih =>
    intro cur s f a
    cases hd : d r with
    | ok u =>
      cases hfi : firstIdx (fun r2 => r2.id == r.id) cur with
      | none => simpa [syncAllGo, hd, hfi] using ih cur (s + 1) f (a ++ [r.id])
      | some idx =>
        simpa [syncAllGo, hd, hfi, modifyIdx_length]
          using ih (modifyIdx (fun u => { u with synced := true }) idx cur)
            (s + 1) f (a ++ [r.id])
    | error msg =>
      cases hfi : firstIdx (fun r2 => r2.id == r.id) cur with
      | none => simpa [syncAllGo, hd, hfi] using ih cur s (f + 1) (a ++ [r.id])
      | some idx =>
        simpa [syncAllGo, hd, hfi, modifyIdx_length]
          using ih (modifyIdx (fun u => { u with syncError := some msg }) idx cur)
            s (f + 1) (a ++ [r.id])

theorem syncAllQueue_pointwiseOK (d : Deliver) (q : List OfflineRecord) :
    PointwiseOK q (syncAllQueue d q).1 := by
  unfold syncAllQueue
  by_cases hp : (q.filter (fun r => !r.synced)).isEmpty
  · simpa [hp] using pointwiseOK_refl q
  · simpa [hp] using syncAllGo_pointwiseOK d (q.filter (fun r => !r.synced)) q 0 0 []

theorem syncAllQueue_map_id (d : Deliver) (q : List OfflineRecord) :
    (syncAllQueue d q).1.map (fun r => r.id) = q.map (fun r => r.id) := by
  apply List.ext_getElem?
  intro j
  rw [List.getElem?_map, List.getElem?_map]
  exact (syncAllQueue_pointwiseOK d q j).1

theorem syncAllQueue_length (d : Deliver) (q : List OfflineRecord) :
    (syncAllQueue d q).1.length = q.length := by
  unfold syncAllQueue
  by_cases hp : (q.filter (fun r => !r.synced)).isEmpty
  · simp [hp]
  · simpa [hp] using syncAllGo_length d (q.filter (fun r => !r.synced)) q 0 0 []

theorem lookupSynced_mono_pointwise (i : String) :
    ∀ (l l' : List OfflineRecord), PointwiseOK l l' →
      lookupSynced i l = some true → lookupSynced i l' = some true := by
  intro l
  induction l with
  | nil =>
    intro l' _ hl
    simp [lookupSynced] at hl
  | cons r tl ih =>
    intro l' hpw hl
    cases l' with
    | nil =>
      have h0 := (hpw 0).1
      simp at h0
    | cons r' tl' =>
      have hid0 : r'.id = r.id := by
        have h0 := (hpw 0).1
        simpa using h0
      have hpw' : PointwiseOK tl tl' := by
        intro j
        have hj := hpw (j + 1)
        simpa using hj
      by_cases hri : (r.id == i) = true
      · have hsy : r.synced = true := by
          unfold lookupSynced at hl
          rw [@List.find?_cons_of_pos _ (fun r => r.id == i) r tl hri] at hl
          simpa using hl
        have hsy' : r'.synced = true := by
          have h0 := (hpw 0).2 (by simp [hsy])
          simpa using h0
        have hri' : (r'.id == i) = true := by rw [hid0]; exact hri
        unfold lookupSynced
        rw [@List.find?_cons_of_pos _ (fun r => r.id == i) r' tl' hri']
        simp [hsy']
      · have hl2 : lookupSynced i tl = some true := by
          unfold lookupSynced at hl ⊢
          rw [@List.find?_cons_of_neg _ (fun r => r.id == i) r tl hri] at hl
          exact hl
        have hri' : ¬ (r'.id == i) = true := by rw [hid0]; exact hri
        unfold lookupSynced
        rw [@List.find?_cons_of_neg _ (fun r => r.id == i) r' tl' hri']
        have hres := ih tl' hpw' hl2
        unfold lookupSynced at hres
        exact hres

theorem lookupSynced_none_pointwise (i : String) :
    ∀ (l l' : List OfflineRecord), PointwiseOK l l' →
      lookupSynced i l = none → lookupSynced i l' = none := by
  intro l
  induction l with
  | nil =>
    intro l' hpw _
    cases l' with
    | nil => rfl
    | cons r' tl' =>
      have h0 := (hpw 0).1
      simp at h0
  | cons r tl ih =>
    intro l' hpw hl
    cases l' with
    | nil => rfl
    | cons r' tl' =>
      have hid0 : r'.id = r.id := by
        have h0 := (hpw 0).1
        simpa using h0
      have hpw' : PointwiseOK tl tl' := by
        intro j
        have hj := hpw (j + 1)
        simpa using hj
      by_cases hri : (r.id == i) = true
      · exfalso
        unfold lookupSynced at hl
        rw [@List.find?_cons_of_pos _ (fun r => r.id == i) r tl hri] at hl
        simp at hl
      · have hl2 : lookupSynced i tl = none := by
          unfold lookupSynced at hl ⊢
          rw [@List.find?_cons_of_neg _ (fun r => r.id == i) r tl hri] at hl
          exact hl
        have hri' : ¬ (r'.id == i) = true := by rw [hid0]; exact hri
        unfold lookupSynced
        rw [@List.find?_cons_of_neg _ (fun r => r.id == i) r' tl' hri']
        have hres := ih tl' hpw' hl2
        unfold lookupSynced at hres
        exact hres

theorem lookupSynced_enq_some (q : List OfflineRecord) (p : Nat)
    (nid cAt i : String) (b : Bool) (h : lookupSynced i q = some b) :
    lookupSynced i (applyOp q (.enq p nid cAt)) = some b := by
  unfold applyOp addToQueue
  by_cases hful : q.length ≥ OFFLINE_CONFIG.MAX_QUEUE_SIZE
  · simpa [hful] using h
  · simp only [hful, if_neg, ite_false, ge_iff_le, not_le]
    unfold lookupSynced at h ⊢
    simp only [List.find?_append]
    cases hf : q.find? (fun r => r.id == i) with
    | none => rw [hf] at h; simp at h
    | some r =>
      rw [hf] at h
      simpa using h

theorem lookupSynced_enq_none (q : List OfflineRecord) (p : Nat)
    (nid cAt i : String) (hne : nid ≠ i) (h : lookupSynced i q = none) :
    lookupSynced i (applyOp q (.enq p nid cAt)) = none := by
  unfold applyOp addToQueue
  by_cases hful : q.length ≥ OFFLINE_CONFIG.MAX_QUEUE_SIZE
  · simpa [hful] using h
  · simp only [hful, if_neg, ite_false, ge_iff_le, not_le]
    unfold lookupSynced at h ⊢
    simp only [List.find?_append]
    cases hf : q.find? (fun r => r.id == i) with
    | some r => rw [hf] at h; simp at h
    | none =>
      have hb : (nid == i) = false := by simpa using hne
      simp [List.find?, hb]

theorem lookupSynced_compact_of_true (q : List OfflineRecord) (i : String)
    (hnd : (q.map (fun r => r.id)).Nodup)
    (h : lookupSynced i q = some true) :
    lookupSynced i (q.filter (fun r => !r.synced)) = none := by
  unfold lookupSynced at h ⊢
  cases hf : q.find? (fun r => r.id == i) with
  | none => rw [hf] at h; simp at h
  | some r =>
    rw [hf] at h
    have hsy : r.synced = true := by simpa using h
    have hrq : r ∈ q := List.mem_of_find?_eq_some hf
    have hri : r.id = i := by simpa using List.find?_some hf
    have hnone : (q.filter (fun r => !r.synced)).find? (fun r => r.id == i)
        = none := by
      rw [List.find?_eq_none]
      intro x hx hpred
      have hxq : x ∈ q := (List.mem_filter.mp hx).1
      have hxs : x.synced = false := by
        have h2 := (List.mem_filter.mp hx).2
        simpa using h2
      have hxi : x.id = i := by simpa using hpred
      have hxr : x = r :=
        List.inj_on_of_nodup_map hnd hxq hrq (by rw [hxi, hri])
      rw [hxr, hsy] at hxs
      exact Bool.true_eq_false.mp hxs
    rw [hnone]
    rfl

theorem lookupSynced_compact_none (q : List OfflineRecord) (i : String)
    (h : lookupSynced i q = none) :
    lookupSynced i (q.filter (fun r => !r.synced)) = none := by
  unfold lookupSynced at h ⊢
  cases hf : q.find? (fun r => r.id == i) with
  | some r => rw [hf] at h; simp at h
  | none =>
    rw [List.find?_eq_none] at hf
    have hnone : (q.filter (fun r => !r.synced)).find? (fun r => r.id == i)
        = none := by
      rw [List.find?_eq_none]
      intro x hx
      exact hf x (List.mem_filter.mp hx).1
    rw [hnone]
    rfl

theorem nodup_ids_enq (q : List OfflineRecord) (p : Nat) (nid cAt : String)
    (hnd : (q.map (fun r => r.id)).Nodup)
    (hfresh : nid ∉ q.map (fun r => r.id)) :
    ((applyOp q (.enq p nid cAt)).map (fun r => r.id)).Nodup := by
  unfold applyOp addToQueue
  by_cases hful : q.length ≥ OFFLINE_CONFIG.MAX_QUEUE_SIZE
  · simpa [hful] using hnd
  · simp only [hful, if_neg, ite_false, ge_iff_le, not_le]
    rw [List.map_append, List.nodup_append]
    refine ⟨hnd, by simp, ?_⟩
    intro a ha hb
    simp at hb
    rw [hb] at ha
    exact hfresh ha

theorem nodup_ids_drain (d : Deliver) (q : List OfflineRecord)
    (hnd : (q.map (fun r => r.id)).Nodup) :
    ((applyOp q (.drain d)).map (fun r => r.id)).Nodup := by
  show (((syncAllQueue d q).1).map (fun r => r.id)).Nodup
  rw [syncAllQueue_map_id]
  exact hnd

theorem nodup_ids_compact (q : List OfflineRecord)
    (hnd : (q.map (fun r => r.id)).Nodup) :
    ((applyOp q .compact).map (fun r => r.id)).Nodup := by
  show (((q.filter (fun r => !r.synced))).map (fun r => r.id)).Nodup
  exact List.Nodup.sublist ((List.filter_sublist q).map _) hnd

theorem lookupSynced_none_ops (i : String) :
    ∀ (ops : List QOp) (q : List OfflineRecord),
      (∀ op ∈ ops, enqIdOf op ≠ some i) →
      lookupSynced i q = none →
      lookupSynced i (applyOps q ops) = none := by
  intro ops
  induction ops with
  | nil => intro q _ h; exact h
  | cons op ops' ih =>
    intro q hops h
    have hop := hops op (List.mem_cons_self op ops')
    have htail : ∀ o ∈ ops', enqIdOf o ≠ some i :=
      fun o ho => hops o (List.mem_cons_of_mem op ho)
    show lookupSynced i (applyOps (applyOp q op) ops') = none
    apply ih _ htail
    cases op with
    | enq p nid cAt =>
      have hne : nid ≠ i := by
        intro e
        exact hop (by simp [enqIdOf, e])
      exact lookupSynced_enq_none q p nid cAt i hne h
    | drain d =>
      exact lookupSynced_none_pointwise i q _ (syncAllQueue_pointwiseOK d q) h
    | compact => exact lookupSynced_compact_none q i h

theorem lookupSynced_mono_ops (i : String) :
    ∀ (ops : List QOp) (q : List OfflineRecord),
      (q.map (fun r => r.id)).Nodup → WFOps q ops = true →
      (∀ op ∈ ops, enqIdOf op ≠ some i) →
      lookupSynced i q = some true →
      lookupSynced i (applyOps q ops) ≠ some false := by
  intro ops
  induction ops with
  | nil =>
    intro q _ _ _ h
    show lookupSynced i q ≠ some false
    rw [h]
    simp
  | cons op ops' ih =>
    intro q hnd hwf hops h
    have htail : ∀ o ∈ ops', enqIdOf o ≠ some i :=
      fun o ho => hops o (List.mem_cons_of_mem op ho)
    show lookupSynced i (applyOps (applyOp q op) ops') ≠ some false
    cases op with
    | enq p nid cAt =>
      unfold WFOps at hwf
      rw [Bool.and_eq_true] at hwf
      have hfresh : nid ∉ q.map (fun r => r.id) := by simpa using hwf.1
      exact ih _ (nodup_ids_enq q p nid cAt hnd hfresh) hwf.2 htail
        (lookupSynced_enq_some q p nid cAt i true h)
    | drain d =>
      unfold WFOps at hwf
      rw [Bool.and_eq_true] at hwf
      exact ih _ (nodup_ids_drain d q hnd) hwf.2 htail
        (lookupSynced_mono_pointwise i q _ (syncAllQueue_pointwiseOK d q) h)
    | compact =>
      have h0 : lookupSynced i (applyOp q QOp.compact) = none :=
        lookupSynced_compact_of_true q i hnd h
      have hn := lookupSynced_none_ops i ops' (applyOp q QOp.compact) htail h0
      rw [hn]
      simp

theorem syncAllGo_map_expected (d : Deliver) :
    ∀ (pending cur : List OfflineRecord) (s f : Nat) (a : List String),
      (cur.map (fun r => r.id)).Nodup →
      (∀ p ∈ pending, p ∈ cur) →
      (pending.map (fun r => r.id)).Nodup →
      (syncAllGo d pending cur s f a).1
        = cur.map (fun u =>
            match pending.find? (fun p => p.id == u.id) with
            | some p => applyOutcome d p u
            | none => u) := by
  intro pending
  induction pending with
  | nil =>
    intro cur s f a _ _ _
    show cur = _
    have hmap : (fun u : OfflineRecord =>
        match List.find? (fun p => p.id == u.id) [] with
        | some p => applyOutcome d p u
        | none => u) = fun u => u := by
      funext u
      rfl
    rw [hmap, List.map_id']
  | cons p rest ih =>
    intro cur s f a hndc hsub hndp
    have hpc : p ∈ cur := hsub p (List.mem_cons_self p rest)
    obtain ⟨j, hj, hjget⟩ := firstIdx_nodup_mem p cur hndc hpc
    rw [List.map_cons] at hndp
    have hndp' := List.nodup_cons.mp hndp
    have hfr : rest.find? (fun q => q.id == p.id) = none := by
      rw [List.find?_eq_none]
      intro x hx hpred
      apply hndp'.1
      have hxi : x.id = p.id := by simpa using hpred
      rw [← hxi]
      exact List.mem_map_of_mem (fun r => r.id) hx
    cases hd : d p with
    | ok u0 =>
      have hstep : (syncAllGo d (p :: rest) cur s f a).1
          = (syncAllGo d rest
              (modifyIdx (fun u => { u with synced := true }) j cur)
              (s + 1) f (a ++ [p.id])).1 := by
        simp [syncAllGo, hd, hj]
      have hnd' : ((modifyIdx (fun u => { u with synced := true }) j cur).map
          (fun r => r.id)).Nodup := by
        rw [map_id_modifyIdx (fun u => { u with synced := true })
          (fun _ => rfl)]
        exact hndc
      have hsub' : ∀ p' ∈ rest,
          p' ∈ modifyIdx (fun u => { u with synced := true }) j cur := by
        intro p' hp'
        have hp'c : p' ∈ cur := hsub p' (List.mem_cons_of_mem p hp')
        obtain ⟨j', hj'⟩ := List.getElem?_of_mem hp'c
        have hj'ne : j' ≠ j := by
          intro e
          rw [e, hjget] at hj'
          have hpp : p = p' := by simpa using hj'
          apply hndp'.1
          rw [hpp]
          exact List.mem_map_of_mem (fun r => r.id) hp'
        have hg : (modifyIdx (fun u => { u with synced := true }) j
            cur)[j']? = some p' := by
          rw [getElem?_modifyIdx_other _ _ _ _ hj'ne]
          exact hj'
        exact List.getElem?_mem hg
      rw [hstep, ih _ (s + 1) f (a ++ [p.id]) hnd' hsub' hndp'.2]
      apply List.ext_getElem?
      intro j0
      rw [List.getElem?_map, List.getElem?_map]
      by_cases hj0 : j0 = j
      · subst hj0
        rw [getElem?_modifyIdx_self, hjget]
        simp only [Option.map_some', Option.some.injEq]
        have hgid : ({ p with synced := true } : OfflineRecord).id = p.id := rfl
        simp only [hgid, hfr]
        rw [@List.find?_cons_of_pos _ (fun q => q.id == p.id) p rest (by simp)]
        show ({ p with synced := true } : OfflineRecord) = applyOutcome d p p
        rw [applyOutcome, hd]
      · rw [getElem?_modifyIdx_other _ _ _ _ hj0]
        cases hc : cur[j0]? with
        | none => rfl
        | some u =>
          simp only [Option.map_some', Option.some.injEq]
          have hne : u.id ≠ p.id := by
            apply nodup_ids_ne (cur.map fun r => r.id) hndc j0 j _ _ hj0
            · rw [List.getElem?_map, hc]; rfl
            · rw [List.getElem?_map, hjget]; rfl
          rw [@List.find?_cons_of_neg _ (fun q => q.id == u.id) p rest
            (by simpa using fun e => hne e.symm)]
    | error msg =>
      have hstep : (syncAllGo d (p :: rest) cur s f a).1
          = (syncAllGo d rest
              (modifyIdx (fun u => { u with syncError := some msg }) j cur)
              s (f + 1) (a ++ [p.id])).1 := by
        simp [syncAllGo, hd, hj]
      have hnd' : ((modifyIdx (fun u => { u with syncError := some msg }) j
          cur).map (fun r => r.id)).Nodup := by
        rw [map_id_modifyIdx (fun u => { u with syncError := some msg })
          (fun _ => rfl)]
        exact hndc
      have hsub' : ∀ p' ∈ rest,
          p' ∈ modifyIdx (fun u => { u with syncError := some msg }) j cur := by
        intro p' hp'
        have hp'c : p' ∈ cur := hsub p' (List.mem_cons_of_mem p hp')
        obtain ⟨j', hj'⟩ := List.getElem?_of_mem hp'c
        have hj'ne : j' ≠ j := by
          intro e
          rw [e, hjget] at hj'
          have hpp : p = p' := by simpa using hj'
          apply hndp'.1
          rw [hpp]
          exact List.mem_map_of_mem (fun r => r.id) hp'
        have hg : (modifyIdx (fun u => { u with syncError := some msg }) j
            cur)[j']? = some p' := by
          rw [getElem?_modifyIdx_other _ _ _ _ hj'ne]
          exact hj'
        exact List.getElem?_mem hg
      rw [hstep, ih _ s (f + 1) (a ++ [p.id]) hnd' hsub' hndp'.2]
      apply List.ext_getElem?
      intro j0
      rw [List.getElem?_map, List.getElem?_map]
      by_cases hj0 : j0 = j
      · subst hj0
        rw [getElem?_modifyIdx_self, hjget]
        simp only [Option.map_some', Option.some.injEq]
        have hgid :
            ({ p with syncError := some msg } : OfflineRecord).id = p.id := rfl
        simp only [hgid, hfr]
        rw [@List.find?_cons_of_pos _ (fun q => q.id == p.id) p rest (by simp)]
        show ({ p with syncError := some msg } : OfflineRecord)
          = applyOutcome d p p
        rw [applyOutcome, hd]
      · rw [getElem?_modifyIdx_other _ _ _ _ hj0]
        cases hc : cur[j0]? with
        | none => rfl
        | some u =>
          simp only [Option.map_some', Option.some.injEq]
          have hne : u.id ≠ p.id := by
            apply nodup_ids_ne (cur.map fun r => r.id) hndc j0 j _ _ hj0
            · rw [List.getElem?_map, hc]; rfl
            · rw [List.getElem?_map, hjget]; rfl
          rw [@List.find?_cons_of_neg _ (fun q => q.id == u.id) p rest
            (by simpa using fun e => hne e.symm)]

theorem syncAllQueue_map_expected (d : Deliver) (q : List OfflineRecord)
    (hnd : (q.map (fun r => r.id)).Nodup) :
    (syncAllQueue d q).1 = q.map (sfun d) := by
  unfold syncAllQueue
  by_cases hp : (q.filter (fun r => !r.synced)).isEmpty
  · simp only [hp, ite_true]
    have hall : ∀ u ∈ q, u.synced = true := by
      intro u hu
      by_contra hs
      have hm : u ∈ q.filter (fun r => !r.synced) :=
        List.mem_filter.mpr ⟨hu, by simpa using hs⟩
      rw [List.isEmpty_iff.mp hp] at hm
      cases hm
    have hmap : q.map (sfun d) = q.map (fun u => u) :=
      List.map_congr_left (fun u hu => by simp [sfun, hall u hu])
    rw [hmap, List.map_id']
  · rw [if_neg hp]
    have hsub : ∀ p ∈ q.filter (fun r => !r.synced), p ∈ q :=
      fun p hp' => (List.mem_filter.mp hp').1
    have hndp : ((q.filter (fun r => !r.synced)).map (fun r => r.id)).Nodup :=
      List.Nodup.sublist ((List.filter_sublist q).map _) hnd
    rw [syncAllGo_map_expected d (q.filter (fun r => !r.synced)) q 0 0 []
      hnd hsub hndp]
    apply List.map_congr_left
    intro u hu
    by_cases hs : u.synced = true
    · have hf : (q.filter (fun r => !r.synced)).find?
          (fun p => p.id == u.id) = none := by
        rw [List.find?_eq_none]
        intro x hx hpred
        have hxq : x ∈ q := (List.mem_filter.mp hx).1
        have hxs : ¬ x.synced = true := by
          have h2 := (List.mem_filter.mp hx).2
          simp at h2
          simp [h2]
        have hxu : x = u :=
          List.inj_on_of_nodup_map hnd hxq hu (by simpa using hpred)
        rw [hxu] at hxs
        exact hxs hs
      simp only [hf, sfun, hs, ite_true]
    · have hufil : u ∈ q.filter (fun r => !r.synced) :=
        List.mem_filter.mpr ⟨hu, by simpa using hs⟩
      cases hf : (q.filter (fun r => !r.synced)).find?
          (fun p => p.id == u.id) with
      | none =>
        exfalso
        rw [List.find?_eq_none] at hf
        exact hf u hufil (by simp)
      | some x =>
        have hxq : x ∈ q :=
          (List.mem_filter.mp (List.mem_of_find?_eq_some hf)).1
        have hxu : x = u := List.inj_on_of_nodup_map hnd hxq hu
          (by simpa using List.find?_some hf)
        rw [hxu]
        simp [sfun, hs]

theorem syncAllGo_counts (d : Deliver) :
    ∀ (pending cur : List OfflineRecord) (s f : Nat) (a : List String),
      (syncAllGo d pending cur s f a).2.1 = s + pending.countP (isDelivOk d)
      ∧ (syncAllGo d pending cur s f a).2.2.1
          = f + pending.countP (fun r => !isDelivOk d r)
      ∧ (syncAllGo d pending cur s f a).2.2.2
          = a ++ pending.map (fun r => r.id) := by
  intro pending
  induction pending with
  | nil =>
    intro cur s f a
    exact ⟨by simp [syncAllGo], by simp [syncAllGo], by simp [syncAllGo]⟩
  | cons r rest ih =>
    intro cur s f a
    cases hd : d r with
    | ok u =>
      have hok : isDelivOk d r = true := by simp [isDelivOk, hd]
      have hstep : ∃ cur', syncAllGo d (r :: rest) cur s f a
          = syncAllGo d rest cur' (s + 1) f (a ++ [r.id]) := by
        cases hfi : firstIdx (fun r2 => r2.id == r.id) cur with
        | none => exact ⟨cur, by simp [syncAllGo, hd, hfi]⟩
        | some idx =>
          exact ⟨modifyIdx (fun u => { u with synced := true }) idx cur,
            by simp [syncAllGo, hd, hfi]⟩
      obtain ⟨cur', hstep⟩ := hstep
      have hih := ih cur' (s + 1) f (a ++ [r.id])
      rw [hstep]
      refine ⟨?_, ?_, ?_⟩
      · rw [hih.1, List.countP_cons]
        simp [hok]
        omega
      · rw [hih.2.1, List.countP_cons]
        simp [hok]
      · rw [hih.2.2]
        simp
    | error msg =>
      have hok : isDelivOk d r = false := by simp [isDelivOk, hd]
      have hstep : ∃ cur', syncAllGo d (r :: rest) cur s f a
          = syncAllGo d rest cur' s (f + 1) (a ++ [r.id]) := by
        cases hfi : firstIdx (fun r2 => r2.id == r.id) cur with
        | none => exact ⟨cur, by simp [syncAllGo, hd, hfi]⟩
        | some idx =>
          exact ⟨modifyIdx (fun u => { u with syncError := some msg }) idx cur,
            by simp [syncAllGo, hd, hfi]⟩
      obtain ⟨cur', hstep⟩ := hstep
      have hih := ih cur' s (f + 1) (a ++ [r.id])
      rw [hstep]
      refine ⟨?_, ?_, ?_⟩
      · rw [hih.1, List.countP_cons]
        simp [hok]
      · rw [hih.2.1, List.countP_cons]
        simp [hok]
        omega
      · rw [hih.2.2]
        simp

theorem syncAllQueue_counts (d : Deliver) (q : List OfflineRecord) :
    (syncAllQueue d q).2.1
        = (q.filter (fun r => !r.synced)).countP (isDelivOk d)
    ∧ (syncAllQueue d q).2.2.1
        = (q.filter (fun r => !r.synced)).countP (fun r => !isDelivOk d r)
    ∧ (syncAllQueue d q).2.2.2
        = (q.filter (fun r => !r.synced)).map (fun r => r.id) := by
  unfold syncAllQueue
  by_cases hp : (q.filter (fun r => !r.synced)).isEmpty
  · rw [List.isEmpty_iff.mp hp]
    exact ⟨by simp, by simp, by simp⟩
  · rw [if_neg hp]
    have h := syncAllGo_counts d (q.filter (fun r => !r.synced)) q 0 0 []
    exact ⟨by simpa using h.1, by simpa using h.2.1, by simpa using h.2.2⟩

theorem assoc_perm_eq {V : Type} (ps1 ps2 : List (String × V))
    (hnd : (ps1.map Prod.fst).Nodup) (hp : ps1.Perm ps2) (k : String) :
    assoc k ps1 = assoc k ps2 := by
  unfold assoc
  cases hfind : ps1.find? (fun kv => kv.1 == k) with
  | none =>
    have h2 : ps2.find? (fun kv => kv.1 == k) = none := by
      rw [List.find?_eq_none] at hfind ⊢
      intro x hx
      exact hfind x (hp.symm.subset hx)
    rw [h2]
  | some kv =>
    have hmem : kv ∈ ps1 := List.mem_of_find?_eq_some hfind
    have hk1 : kv.1 = k := by simpa using List.find?_some hfind
    cases hfind2 : ps2.find? (fun kv => kv.1 == k) with
    | none =>
      exfalso
      rw [List.find?_eq_none] at hfind2
      exact hfind2 kv (hp.subset hmem) (by simpa using hk1)
    | some kv' =>
      have hmem' : kv' ∈ ps1 := hp.symm.subset (List.mem_of_find?_eq_some hfind2)
      have hk1' : kv'.1 = k := by simpa using List.find?_some hfind2
      have hkk : kv = kv' := by
        apply List.inj_on_of_nodup_map hnd hmem hmem'
        rw [hk1, hk1']
      rw [hkk]

theorem sortedKeys_perm_eq {V : Type} (ps1 ps2 : List (String × V))
    (hp : ps1.Perm ps2) : sortedKeys ps1 = sortedKeys ps2 := by
  unfold sortedKeys
  refine @List.eq_of_perm_of_sorted String (fun a b => a ≤ b) ?_ _ _ ?_ ?_ ?_
  · exact inferInstance
  · exact (List.perm_insertionSort _ _).trans
      ((hp.map Prod.fst).trans (List.perm_insertionSort _ _).symm)
  · exact List.sorted_insertionSort _ _
  · exact List.sorted_insertionSort _ _

theorem grun_append (s : GSt) :
    ∀ (xs ys : List GEv), grun s (xs ++ ys) = grun (grun s xs) ys := by
  intro xs
  induction xs generalizing s with
  | nil => intro ys; rfl
  | cons e es ih => intro ys; simpa [grun] using ih (gstep s e) ys

theorem gwf_step (s : GSt) (e : GEv) (h : GWF s) : GWF (gstep s e) := by
  obtain ⟨hlen, hiff⟩ := h
  cases e with
  | handle c =>
    by_cases hs : (s.calls c).status = .pend401
    · by_cases hr : (s.calls c).retry = true
      · have hg : gstep s (.handle c)
            = { s with
                calls :=
                  setCall s.calls c { s.calls c with status := .failed .auth } } := by
          simp [gstep, hs, hr]
        rw [hg]; exact ⟨hlen, hiff⟩
      · have hr' : (s.calls c).retry = false := by
          cases hb : (s.calls c).retry
          · rfl
          · exact absurd hb hr
        by_cases hif : s.isRefreshing = true
        · have hg : gstep s (.handle c)
              = { s with
                  calls :=
                    setCall s.calls c { s.calls c with status := .parked },
                  failedQueue := s.failedQueue ++ [c] } := by
            simp [gstep, hs, hr', hif]
          rw [hg]; exact ⟨hlen, hiff⟩
        · have hif' : s.isRefreshing = false := by
            cases hb : s.isRefreshing
            · rfl
            · exact absurd hb hif
          have htn : s.tasks = [] := by
            by_contra hne
            exact hif (hiff.mpr hne)
          have hg : gstep s (.handle c)
              = { s with
                  calls := setCall s.calls c
                    { s.calls c with
                      retry := true, status := .awaitingRefresh },
                  isRefreshing := true,
                  tasks := s.tasks
                    ++ [{ initiator := c, phase := .gettingTok }] } := by
            simp [gstep, hs, hr', hif']
          rw [hg]
          constructor
          · simp [htn]
          · simp [htn]
    · have hg : gstep s (.handle c) = s := by simp [gstep, hs]
      rw [hg]; exact ⟨hlen, hiff⟩
  | tokRead =>
    rcases hT : s.tasks with _ | ⟨⟨i, ph⟩, rest⟩
    · have hg : gstep s .tokRead = s := by simp [gstep, hT]
      rw [hg]; exact ⟨hlen, hiff⟩
    · cases ph with
      | gettingTok =>
        have hr : s.isRefreshing := hiff.mpr (by rw [hT]; simp)
        cases hR : s.refreshTok with
        | some tok =>
          have hg : gstep s .tokRead
              = { s with
                  tasks := { initiator := i, phase := .exchanging } :: rest,
                  exchCount := s.exchCount + 1 } := by
            simp [gstep, hT, hR]
          rw [hg]
          refine ⟨by simpa using (by rw [hT] at hlen; simpa using hlen), ?_⟩
          constructor
          · intro _; simp
          · intro _; exact hr
        | none =>
          have hg : gstep s .tokRead
              = { s with
                  calls := rejectParked s.calls s.failedQueue .auth,
                  failedQueue := [],
                  tasks :=
                    { initiator := i, phase := .clearing1 .auth } :: rest } := by
            simp [gstep, hT, hR]
          rw [hg]
          refine ⟨by simpa using (by rw [hT] at hlen; simpa using hlen), ?_⟩
          constructor
          · intro _; simp
          · intro _; exact hr
      | exchanging =>
        have hg : gstep s .tokRead = s := by simp [gstep, hT]
        rw [hg]; exact ⟨hlen, hiff⟩
      | persisting t =>
        have hg : gstep s .tokRead = s := by simp [gstep, hT]
        rw [hg]; exact ⟨hlen, hiff⟩
      | clearing1 k =>
        have hg : gstep s .tokRead = s := by simp [gstep, hT]
        rw [hg]; exact ⟨hlen, hiff⟩
      | clearing2 k =>
        have hg : gstep s .tokRead = s := by simp [gstep, hT]
        rw [hg]; exact ⟨hlen, hiff⟩
  | exchOk t =>
    rcases hT : s.tasks with _ | ⟨⟨i, ph⟩, rest⟩
    · have hg : gstep s (.exchOk t) = s := by simp [gstep, hT]
      rw [hg]; exact ⟨hlen, hiff⟩
    · cases ph with
      | exchanging =>
        have hr : s.isRefreshing := hiff.mpr (by rw [hT]; simp)
        have hg : gstep s (.exchOk t)
            = { s with
                tasks :=
                  { initiator := i, phase := .persisting t } :: rest } := by
          simp [gstep, hT]
        rw [hg]
        refine ⟨by simpa using (by rw [hT] at hlen; simpa using hlen), ?_⟩
        exact ⟨fun _ => by simp, fun _ => hr⟩
      | gettingTok =>
        have hg : gstep s (.exchOk t) = s := by simp [gstep, hT]
        rw [hg]; exact ⟨hlen, hiff⟩
      | persisting t' =>
        have hg : gstep s (.exchOk t) = s := by simp [gstep, hT]
        rw [hg]; exact ⟨hlen, hiff⟩
      | clearing1 k =>
        have hg : gstep s (.exchOk t) = s := by simp [gstep, hT]
        rw [hg]; exact ⟨hlen, hiff⟩
      | clearing2 k =>
        have hg : gstep s (.exchOk t) = s := by simp [gstep, hT]
        rw [hg]; exact ⟨hlen, hiff⟩
  | exchFail k =>
    rcases hT : s.tasks with _ | ⟨⟨i, ph⟩, rest⟩
    · have hg : gstep s (.exchFail k) = s := by simp [gstep, hT]
      rw [hg]; exact ⟨hlen, hiff⟩
    · cases ph with
      | exchanging =>
        have hr : s.isRefreshing := hiff.mpr (by rw [hT]; simp)
        have hg : gstep s (.exchFail k)
            = { s with
                calls := rejectParked s.calls s.failedQueue k,
                failedQueue := [],
                tasks := { initiator := i, phase := .clearing1 k } :: rest } := by
          simp [gstep, hT]
        rw [hg]
        refine ⟨by simpa using (by rw [hT] at hlen; simpa using hlen), ?_⟩
        exact ⟨fun _ => by simp, fun _ => hr⟩
      | gettingTok =>
        have hg : gstep s (.exchFail k) = s := by simp [gstep, hT]
        rw [hg]; exact ⟨hlen, hiff⟩
      | persisting t' =>
        have hg : gstep s (.exchFail k) = s := by simp [gstep, hT]
        rw [hg]; exact ⟨hlen, hiff⟩
      | clearing1 k' =>
        have hg : gstep s (.exchFail k) = s := by simp [gstep, hT]
        rw [hg]; exact ⟨hlen, hiff⟩
      | clearing2 k' =>
        have hg : gstep s (.exchFail k) = s := by simp [gstep, hT]
        rw [hg]; exact ⟨hlen, hiff⟩
  | persistDone =>
    rcases hT : s.tasks with _ | ⟨⟨i, ph⟩, rest⟩
    · have hg : gstep s .persistDone = s := by simp [gstep, hT]
      rw [hg]; exact ⟨hlen, hiff⟩
    · cases ph with
      | persisting t =>
        have hrest : rest = [] := by
          rw [hT] at hlen
          simpa using List.length_eq_zero.mp (by simpa using hlen)
        have hg : gstep s .persistDone
            = { s with
                accessTok := some t,
                calls := setCall (resolveParked s.calls s.failedQueue) i
                  { resolveParked s.calls s.failedQueue i with
                    status := .replaying,
                    replays := (resolveParked s.calls s.failedQueue i).replays
                      + 1 },
                failedQueue := [], tasks := rest, isRefreshing := false } := by
          simp [gstep, hT]
        rw [hg, hrest]
        exact ⟨by simp, by simp⟩
      | gettingTok =>
        have hg : gstep s .persistDone = s := by simp [gstep, hT]
        rw [hg]; exact ⟨hlen, hiff⟩
      | exchanging =>
        have hg : gstep s .persistDone = s := by simp [gstep, hT]
        rw [hg]; exact ⟨hlen, hiff⟩
      | clearing1 k =>
        have hg : gstep s .persistDone = s := by simp [gstep, hT]
        rw [hg]; exact ⟨hlen, hiff⟩
      | clearing2 k =>
        have hg : gstep s .persistDone = s := by simp [gstep, hT]
        rw [hg]; exact ⟨hlen, hiff⟩
  | clearDone1 =>
    rcases hT : s.tasks with _ | ⟨⟨i, ph⟩, rest⟩
    · have hg : gstep s .clearDone1 = s := by simp [gstep, hT]
      rw [hg]; exact ⟨hlen, hiff⟩
    · cases ph with
      | clearing1 k =>
        have hr : s.isRefreshing := hiff.mpr (by rw [hT]; simp)
        have hg : gstep s .clearDone1
            = { s with
                accessTok := none,
                tasks := { initiator := i, phase := .clearing2 k } :: rest } := by
          simp [gstep, hT]
        rw [hg]
        refine ⟨by simpa using (by rw [hT] at hlen; simpa using hlen), ?_⟩
        exact ⟨fun _ => by simp, fun _ => hr⟩
      | gettingTok =>
        have hg : gstep s .clearDone1 = s := by simp [gstep, hT]
        rw [hg]; exact ⟨hlen, hiff⟩
      | exchanging =>
        have hg : gstep s .clearDone1 = s := by simp [gstep, hT]
        rw [hg]; exact ⟨hlen, hiff⟩
      | persisting t =>
        have hg : gstep s .clearDone1 = s := by simp [gstep, hT]
        rw [hg]; exact ⟨hlen, hiff⟩
      | clearing2 k =>
        have hg : gstep s .clearDone1 = s := by simp [gstep, hT]
        rw [hg]; exact ⟨hlen, hiff⟩
  | clearDone2 =>
    rcases hT : s.tasks with _ | ⟨⟨i, ph⟩, rest⟩
    · have hg : gstep s .clearDone2 = s := by simp [gstep, hT]
      rw [hg]; exact ⟨hlen, hiff⟩
    · cases ph with
      | clearing2 k =>
        have hrest : rest = [] := by
          rw [hT] at hlen
          simpa using List.length_eq_zero.mp (by simpa using hlen)
        have hg : gstep s .clearDone2
            = { s with
                refreshTok := none,
                calls := setCall s.calls i
                  { s.calls i with status := .failed k },
                tasks := rest, isRefreshing := false } := by
          simp [gstep, hT]
        rw [hg, hrest]
        exact ⟨by simp, by simp⟩
      | gettingTok =>
        have hg : gstep s .clearDone2 = s := by simp [gstep, hT]
        rw [hg]; exact ⟨hlen, hiff⟩
      | exchanging =>
        have hg : gstep s .clearDone2 = s := by simp [gstep, hT]
        rw [hg]; exact ⟨hlen, hiff⟩
      | persisting t =>
        have hg : gstep s .clearDone2 = s := by simp [gstep, hT]
        rw [hg]; exact ⟨hlen, hiff⟩
      | clearing1 k =>
        have hg : gstep s .clearDone2 = s := by simp [gstep, hT]
        rw [hg]; exact ⟨hlen, hiff⟩
  | replayOk c =>
    by_cases hs : (s.calls c).status = .replaying
    · have hg : gstep s (.replayOk c)
          = { s with
              calls := setCall s.calls c
                { s.calls c with status := .ok } } := by
        simp [gstep, hs]
      rw [hg]; exact ⟨hlen, hiff⟩
    · have hg : gstep s (.replayOk c) = s := by simp [gstep, hs]
      rw [hg]; exact ⟨hlen, hiff⟩
  | replay401 c =>
    by_cases hs : (s.calls c).status = .replaying
    · have hg : gstep s (.replay401 c)
          = { s with
              calls := setCall s.calls c
                { s.calls c with status := .pend401 } } := by
        simp [gstep, hs]
      rw [hg]; exact ⟨hlen, hiff⟩
    · have hg : gstep s (.replay401 c) = s := by simp [gstep, hs]
      rw [hg]; exact ⟨hlen, hiff⟩
  | replayErr c k =>
    by_cases hs : (s.calls c).status = .replaying
    · have hg : gstep s (.replayErr c k)
          = { s with
              calls := setCall s.calls c
                { s.calls c with status := .failed k } } := by
        simp [gstep, hs]
      rw [hg]; exact ⟨hlen, hiff⟩
    · have hg : gstep s (.replayErr c k) = s := by simp [gstep, hs]
      rw [hg]; exact ⟨hlen, hiff⟩

theorem gwf_run : ∀ (sched : List GEv) (s : GSt), GWF s → GWF (grun s sched) := by
  intro sched
  induction sched with
  | nil => intro s h; exact h
  | cons e es ih => intro s h; exact ih (gstep s e) (gwf_step s e h)

theorem grun_handles_park :
    ∀ (cs : List Nat) (s : GSt), s.isRefreshing = true → cs.Nodup →
      (∀ c ∈ cs, (s.calls c).status = .pend401 ∧ (s.calls c).retry = false) →
      grun s (cs.map GEv.handle)
        = { s with failedQueue := s.failedQueue ++ cs,
                   calls := parkAll s.calls cs } := by
  intro cs
  induction cs with
  | nil =>
    intro s _ _ _
    show s = _
    have hcalls : parkAll s.calls [] = s.calls := by
      funext d
      simp [parkAll]
    rw [hcalls, List.append_nil]
  | cons c cs ih =>
    intro s href hnd hst
    have hc := hst c (List.mem_cons_self c cs)
    have hndc := List.nodup_cons.mp hnd
    have h1 : gstep s (.handle c)
        = { s with
            calls := setCall s.calls c { s.calls c with status := .parked },
            failedQueue := s.failedQueue ++ [c] } := by
      simp [gstep, hc.1, hc.2, href]
    have hq : (s.failedQueue ++ [c]) ++ cs = s.failedQueue ++ (c :: cs) := by
      rw [List.append_assoc, List.singleton_append]
    have hcalls :
        parkAll (setCall s.calls c { s.calls c with status := .parked }) cs
          = parkAll s.calls (c :: cs) := by
      funext d
      by_cases hdcs : d ∈ cs
      · have hdc : d ≠ c := fun e => hndc.1 (e ▸ hdcs)
        simp only [parkAll, hdcs, if_true, List.mem_cons]
        rw [setCall_other _ _ _ _ hdc]
        simp [hdcs]
      · by_cases hdc : d = c
        · subst hdc
          simp only [parkAll, hdcs, if_false, List.mem_cons]
          rw [setCall_self]
          simp
        · simp only [parkAll, hdcs, if_false, List.mem_cons]
          rw [setCall_other _ _ _ _ hdc]
          simp [hdcs, hdc]
    show grun (gstep s (.handle c)) (cs.map GEv.handle) = _
    rw [h1, ih]
    · dsimp only
      rw [hq, hcalls]
    · exact href
    · exact hndc.2
    · intro c' hc'
      have hne : c' ≠ c := fun e => hndc.1 (e ▸ hc')
      have hset : setCall s.calls c
          { s.calls c with status := .parked } c' = s.calls c' :=
        setCall_other _ _ _ _ hne
      dsimp only
      rw [hset]
      exact hst c' (List.mem_cons_of_mem c hc')

theorem gstep_handle_start (s : GSt) (c : Nat)
    (h1 : (s.calls c).status = .pend401) (h2 : (s.calls c).retry = false)
    (h3 : s.isRefreshing = false) :
    gstep s (.handle c)
      = { s with
          calls := setCall s.calls c
            { s.calls c with retry := true, status := .awaitingRefresh },
          isRefreshing := true,
          tasks := s.tasks ++ [{ initiator := c, phase := .gettingTok }] } := by
  simp [gstep, h1, h2, h3]

theorem grun_replayOks :
    ∀ (l : List Nat) (s : GSt), l.Nodup →
      (∀ c ∈ l, (s.calls c).status = .replaying) →
      grun s (l.map GEv.replayOk) = { s with calls := okAll s.calls l } := by
  intro l
  induction l with
  | nil =>
    intro s _ _
    show s = _
    have hcalls : okAll s.calls [] = s.calls := by
      funext d
      simp [okAll]
    rw [hcalls]
  | cons c cs ih =>
    intro s hnd hst
    have hc := hst c (List.mem_cons_self c cs)
    have hndc := List.nodup_cons.mp hnd
    have h1 : gstep s (.replayOk c)
        = { s with
            calls := setCall s.calls c { s.calls c with status := .ok } } := by
      simp [gstep, hc]
    have hcalls :
        okAll (setCall s.calls c { s.calls c with status := .ok }) cs
          = okAll s.calls (c :: cs) := by
      funext d
      by_cases hdcs : d ∈ cs
      · have hdc : d ≠ c := fun e => hndc.1 (e ▸ hdcs)
        simp only [okAll, hdcs, if_true, List.mem_cons]
        rw [setCall_other _ _ _ _ hdc]
        simp [hdcs]
      · by_cases hdc : d = c
        · subst hdc
          simp only [okAll, hdcs, if_false, List.mem_cons]
          rw [setCall_self]
          simp
        · simp only [okAll, hdcs, if_false, List.mem_cons]
          rw [setCall_other _ _ _ _ hdc]
          simp [hdcs, hdc]
    show grun (gstep s (.replayOk c)) (cs.map GEv.replayOk) = _
    rw [h1, ih]
    · dsimp only
      rw [hcalls]
    · exact hndc.2
    · intro c' hc'
      have hne : c' ≠ c := fun e => hndc.1 (e ▸ hc')
      have hset : setCall s.calls c
          { s.calls c with status := .ok } c' = s.calls c' :=
        setCall_other _ _ _ _ hne
      dsimp only
      rw [hset]
      exact hst c' (List.mem_cons_of_mem c hc')

theorem rejectParked_no_pend (f : Nat → CallSt) (q : List Nat) (k : ErrKind)
    (h : ∀ c, (f c).status ≠ .pend401) :
    ∀ c, (rejectParked f q k c).status ≠ .pend401 := by
  intro c
  by_cases hc : c ∈ q
  · rw [rejectParked_mem _ _ _ _ hc]
    simp
  · rw [rejectParked_not_mem _ _ _ _ hc]
    exact h c

theorem resolveParked_no_pend (f : Nat → CallSt) :
    ∀ (q : List Nat), (∀ c, (f c).status ≠ .pend401) →
      ∀ c, (resolveParked f q c).status ≠ .pend401 := by
  intro q
  induction q generalizing f with
  | nil => intro h c; exact h c
  | cons a q ih =>
    intro h c
    show (resolveParked (setCall f a
      { f a with status := .replaying, replays := (f a).replays + 1 })
        q c).status ≠ .pend401
    apply ih
    intro c'
    by_cases hca : c' = a
    · subst hca
      rw [setCall_self]
      simp
    · rw [setCall_other _ _ _ _ hca]
      exact h c'

theorem p1_step (s : GSt) (e : GEv) (hne : ∀ c, e ≠ .replay401 c)
    (h : P1 s) : P1 (gstep s e) := by
  obtain ⟨hcnt, hpend⟩ := h
  cases e with
  | handle c =>
    have hg : gstep s (.handle c) = s := by simp [gstep, hpend c]
    rw [hg]; exact ⟨hcnt, hpend⟩
  | tokRead =>
    rcases hT : s.tasks with _ | ⟨⟨i, ph⟩, rest⟩
    · have hg : gstep s .tokRead = s := by simp [gstep, hT]
      rw [hg]; exact ⟨hcnt, hpend⟩
    · cases ph with
      | gettingTok =>
        have e1 : gettingCount s
            = (rest.filter (fun t => t.phase = .gettingTok)).length + 1 := by
          simp [gettingCount, hT]
        cases hR : s.refreshTok with
        | some tok =>
          have hg : gstep s .tokRead
              = { s with
                  tasks := { initiator := i, phase := .exchanging } :: rest,
                  exchCount := s.exchCount + 1 } := by
            simp [gstep, hT, hR]
          rw [hg]
          refine ⟨?_, hpend⟩
          have e2 : gettingCount { s with
              tasks := { initiator := i, phase := RPhase.exchanging } :: rest,
              exchCount := s.exchCount + 1 }
              = (rest.filter (fun t => t.phase = .gettingTok)).length := by
            simp [gettingCount]
          dsimp only
          rw [e2]
          rw [e1] at hcnt
          omega
        | none =>
          have hg : gstep s .tokRead
              = { s with
                  calls := rejectParked s.calls s.failedQueue .auth,
                  failedQueue := [],
                  tasks :=
                    { initiator := i, phase := .clearing1 .auth } :: rest } := by
            simp [gstep, hT, hR]
          rw [hg]
          refine ⟨?_, rejectParked_no_pend s.calls s.failedQueue .auth hpend⟩
          have e2 : gettingCount { s with
              calls := rejectParked s.calls s.failedQueue ErrKind.auth,
              failedQueue := [],
              tasks :=
                { initiator := i, phase := RPhase.clearing1 .auth } :: rest }
              = (rest.filter (fun t => t.phase = .gettingTok)).length := by
            simp [gettingCount]
          dsimp only
          rw [e2]
          rw [e1] at hcnt
          omega
      | exchanging =>
        have hg : gstep s .tokRead = s := by simp [gstep, hT]
        rw [hg]; exact ⟨hcnt, hpend⟩
      | persisting t =>
        have hg : gstep s .tokRead = s := by simp [gstep, hT]
        rw [hg]; exact ⟨hcnt, hpend⟩
      | clearing1 k =>
        have hg : gstep s .tokRead = s := by simp [gstep, hT]
        rw [hg]; exact ⟨hcnt, hpend⟩
      | clearing2 k =>
        have hg : gstep s .tokRead = s := by simp [gstep, hT]
        rw [hg]; exact ⟨hcnt, hpend⟩
  | exchOk t =>
    rcases hT : s.tasks with _ | ⟨⟨i, ph⟩, rest⟩
    · have hg : gstep s (.exchOk t) = s := by simp [gstep, hT]
      rw [hg]; exact ⟨hcnt, hpend⟩
    · cases ph with
      | exchanging =>
        have e1 : gettingCount s
            = (rest.filter (fun t => t.phase = .gettingTok)).length := by
          simp [gettingCount, hT]
        have hg : gstep s (.exchOk t)
            = { s with
                tasks :=
                  { initiator := i, phase := .persisting t } :: rest } := by
          simp [gstep, hT]
        rw [hg]
        refine ⟨?_, hpend⟩
        have e2 : gettingCount { s with
            tasks := { initiator := i, phase := RPhase.persisting t } :: rest }
            = (rest.filter (fun t => t.phase = .gettingTok)).length := by
          simp [gettingCount]
        dsimp only
        rw [e2]
        rw [e1] at hcnt
        omega
      | gettingTok =>
        have hg : gstep s (.exchOk t) = s := by simp [gstep, hT]
        rw [hg]; exact ⟨hcnt, hpend⟩
      | persisting t' =>
        have hg : gstep s (.exchOk t) = s := by simp [gstep, hT]
        rw [hg]; exact ⟨hcnt, hpend⟩
      | clearing1 k =>
        have hg : gstep s (.exchOk t) = s := by simp [gstep, hT]
        rw [hg]; exact ⟨hcnt, hpend⟩
      | clearing2 k =>
        have hg : gstep s (.exchOk t) = s := by simp [gstep, hT]
        rw [hg]; exact ⟨hcnt, hpend⟩
  | exchFail k =>
    rcases hT : s.tasks with _ | ⟨⟨i, ph⟩, rest⟩
    · have hg : gstep s (.exchFail k) = s := by simp [gstep, hT]
      rw [hg]; exact ⟨hcnt, hpend⟩
    · cases ph with
      | exchanging =>
        have e1 : gettingCount s
            = (rest.filter (fun t => t.phase = .gettingTok)).length := by
          simp [gettingCount, hT]
        have hg : gstep s (.exchFail k)
            = { s with
                calls := rejectParked s.calls s.failedQueue k,
                failedQueue := [],
                tasks :=
                  { initiator := i, phase := .clearing1 k } :: rest } := by
          simp [gstep, hT]
        rw [hg]
        refine ⟨?_, rejectParked_no_pend s.calls s.failedQueue k hpend⟩
        have e2 : gettingCount { s with
            calls := rejectParked s.calls s.failedQueue k,
            failedQueue := [],
            tasks := { initiator := i, phase := RPhase.clearing1 k } :: rest }
            = (rest.filter (fun t => t.phase = .gettingTok)).length := by
          simp [gettingCount]
        dsimp only
        rw [e2]
        rw [e1] at hcnt
        omega
      | gettingTok =>
        have hg : gstep s (.exchFail k) = s := by simp [gstep, hT]
        rw [hg]; exact ⟨hcnt, hpend⟩
      | persisting t' =>
        have hg : gstep s (.exchFail k) = s := by simp [gstep, hT]
        rw [hg]; exact ⟨hcnt, hpend⟩
      | clearing1 k' =>
        have hg : gstep s (.exchFail k) = s := by simp [gstep, hT]
        rw [hg]; exact ⟨hcnt, hpend⟩
      | clearing2 k' =>
        have hg : gstep s (.exchFail k) = s := by simp [gstep, hT]
        rw [hg]; exact ⟨hcnt, hpend⟩
  | persistDone =>
    rcases hT : s.tasks with _ | ⟨⟨i, ph⟩, rest⟩
    · have hg : gstep s .persistDone = s := by simp [gstep, hT]
      rw [hg]; exact ⟨hcnt, hpend⟩
    · cases ph with
      | persisting t =>
        have e1 : gettingCount s
            = (rest.filter (fun t => t.phase = .gettingTok)).length := by
          simp [gettingCount, hT]
        have hg : gstep s .persistDone
            = { s with
                accessTok := some t,
                calls := setCall (resolveParked s.calls s.failedQueue) i
                  { resolveParked s.calls s.failedQueue i with
                    status := .replaying,
                    replays := (resolveParked s.calls s.failedQueue i).replays
                      + 1 },
                failedQueue := [], tasks := rest, isRefreshing := false } := by
          simp [gstep, hT]
        rw [hg]
        constructor
        · have e2 : gettingCount { s with
              accessTok := some t,
              calls := setCall (resolveParked s.calls s.failedQueue) i
                { resolveParked s.calls s.failedQueue i with
                  status := .replaying,
                  replays := (resolveParked s.calls s.failedQueue i).replays
                    + 1 },
              failedQueue := [], tasks := rest, isRefreshing := false }
              = (rest.filter (fun t => t.phase = .gettingTok)).length := by
            simp [gettingCount]
          dsimp only
          rw [e2]
          rw [e1] at hcnt
          omega
        · intro c
          by_cases hci : c = i
          · subst hci
            have hset := setCall_self (resolveParked s.calls s.failedQueue) c
              { resolveParked s.calls s.failedQueue c with
                status := .replaying,
                replays := (resolveParked s.calls s.failedQueue c).replays + 1 }
            dsimp only
            rw [hset]
            simp
          · have hset := setCall_other (resolveParked s.calls s.failedQueue) i c
              { resolveParked s.calls s.failedQueue i with
                status := .replaying,
                replays := (resolveParked s.calls s.failedQueue i).replays + 1 }
              hci
            dsimp only
            rw [hset]
            exact resolveParked_no_pend s.calls s.failedQueue hpend c
      | gettingTok =>
        have hg : gstep s .persistDone = s := by simp [gstep, hT]
        rw [hg]; exact ⟨hcnt, hpend⟩
      | exchanging =>
        have hg : gstep s .persistDone = s := by simp [gstep, hT]
        rw [hg]; exact ⟨hcnt, hpend⟩
      | clearing1 k =>
        have hg : gstep s .persistDone = s := by simp [gstep, hT]
        rw [hg]; exact ⟨hcnt, hpend⟩
      | clearing2 k =>
        have hg : gstep s .persistDone = s := by simp [gstep, hT]
        rw [hg]; exact ⟨hcnt, hpend⟩
  | clearDone1 =>
    rcases hT : s.tasks with _ | ⟨⟨i, ph⟩, rest⟩
    · have hg : gstep s .clearDone1 = s := by simp [gstep, hT]
      rw [hg]; exact ⟨hcnt, hpend⟩
    · cases ph with
      | clearing1 k =>
        have e1 : gettingCount s
            = (rest.filter (fun t => t.phase = .gettingTok)).length := by
          simp [gettingCount, hT]
        have hg : gstep s .clearDone1
            = { s with
                accessTok := none,
                tasks :=
                  { initiator := i, phase := .clearing2 k } :: rest } := by
          simp [gstep, hT]
        rw [hg]
        refine ⟨?_, hpend⟩
        have e2 : gettingCount { s with
            accessTok := none,
            tasks := { initiator := i, phase := RPhase.clearing2 k } :: rest }
            = (rest.filter (fun t => t.phase = .gettingTok)).length := by
          simp [gettingCount]
        dsimp only
        rw [e2]
        rw [e1] at hcnt
        omega
      | gettingTok =>
        have hg : gstep s .clearDone1 = s := by simp [gstep, hT]
        rw [hg]; exact ⟨hcnt, hpend⟩
      | exchanging =>
        have hg : gstep s .clearDone1 = s := by simp [gstep, hT]
        rw [hg]; exact ⟨hcnt, hpend⟩
      | persisting t =>
        have hg : gstep s .clearDone1 = s := by simp [gstep, hT]
        rw [hg]; exact ⟨hcnt, hpend⟩
      | clearing2 k =>
        have hg : gstep s .clearDone1 = s := by simp [gstep, hT]
        rw [hg]; exact ⟨hcnt, hpend⟩
  | clearDone2 =>
    rcases hT : s.tasks with _ | ⟨⟨i, ph⟩, rest⟩
    · have hg : gstep s .clearDone2 = s := by simp [gstep, hT]
      rw [hg]; exact ⟨hcnt, hpend⟩
    · cases ph with
      | clearing2 k =>
        have e1 : gettingCount s
            = (rest.filter (fun t => t.phase = .gettingTok)).length := by
          simp [gettingCount, hT]
        have hg : gstep s .clearDone2
            = { s with
                refreshTok := none,
                calls := setCall s.calls i
                  { s.calls i with status := .failed k },
                tasks := rest, isRefreshing := false } := by
          simp [gstep, hT]
        rw [hg]
        constructor
        · have e2 : gettingCount { s with
              refreshTok := none,
              calls := setCall s.calls i
                { s.calls i with status := .failed k },
              tasks := rest, isRefreshing := false }
              = (rest.filter (fun t => t.phase = .gettingTok)).length := by
            simp [gettingCount]
          dsimp only
          rw [e2]
          rw [e1] at hcnt
          omega
        · intro c
          by_cases hci : c = i
          · subst hci
            have hset := setCall_self s.calls c
              { s.calls c with status := .failed k }
            dsimp only
            rw [hset]
            simp
          · have hset := setCall_other s.calls i c
              { s.calls i with status := .failed k } hci
            dsimp only
            rw [hset]
            exact hpend c
      | gettingTok =>
        have hg : gstep s .clearDone2 = s := by simp [gstep, hT]
        rw [hg]; exact ⟨hcnt, hpend⟩
      | exchanging =>
        have hg : gstep s .clearDone2 = s := by simp [gstep, hT]
        rw [hg]; exact ⟨hcnt, hpend⟩
      | persisting t =>
        have hg : gstep s .clearDone2 = s := by simp [gstep, hT]
        rw [hg]; exact ⟨hcnt, hpend⟩
      | clearing1 k' =>
        have hg : gstep s .clearDone2 = s := by simp [gstep, hT]
        rw [hg]; exact ⟨hcnt, hpend⟩
  | replayOk c =>
    by_cases hs : (s.calls c).status = .replaying
    · have hg : gstep s (.replayOk c)
          = { s with
              calls := setCall s.calls c { s.calls c with status := .ok } } := by
        simp [gstep, hs]
      rw [hg]
      refine ⟨hcnt, ?_⟩
      intro c'
      by_cases hcc : c' = c
      · subst hcc
        have hset := setCall_self s.calls c' { s.calls c' with status := .ok }
        dsimp only
        rw [hset]
        simp
      · have hset := setCall_other s.calls c c'
          { s.calls c with status := .ok } hcc
        dsimp only
        rw [hset]
        exact hpend c'
    · have hg : gstep s (.replayOk c) = s := by simp [gstep, hs]
      rw [hg]; exact ⟨hcnt, hpend⟩
  | replay401 c => exact absurd rfl (hne c)
  | replayErr c k =>
    by_cases hs : (s.calls c).status = .replaying
    · have hg : gstep s (.replayErr c k)
          = { s with
              calls :=
                setCall s.calls c { s.calls c with status := .failed k } } := by
        simp [gstep, hs]
      rw [hg]
      refine ⟨hcnt, ?_⟩
      intro c'
      by_cases hcc : c' = c
      · subst hcc
        have hset := setCall_self s.calls c'
          { s.calls c' with status := .failed k }
        dsimp only
        rw [hset]
        simp
      · have hset := setCall_other s.calls c c'
          { s.calls c with status := .failed k } hcc
        dsimp only
        rw [hset]
        exact hpend c'
    · have hg : gstep s (.replayErr c k) = s := by simp [gstep, hs]
      rw [hg]; exact ⟨hcnt, hpend⟩

theorem p1_run : ∀ (sched : List GEv) (s : GSt),
    (∀ e ∈ sched, ∀ c, e ≠ .replay401 c) → P1 s → P1 (grun s sched) := by
  intro sched
  induction sched with
  | nil => intro s _ h; exact h
  | cons e es ih =>
    intro s hno h
    exact ih (gstep s e)
      (fun e' he' => hno e' (List.mem_cons_of_mem e he'))
      (p1_step s e (hno e (List.mem_cons_self e es)) h)

theorem grun_handles_init (N c0 : Nat) (cs : List Nat)
    (hperm : (c0 :: cs).Perm (List.range N)) :
    grun (initN N) ((c0 :: cs).map GEv.handle) = midSt N c0 cs := by
  have hnd : (c0 :: cs).Nodup := hperm.nodup_iff.mpr (List.nodup_range N)
  have hmem : ∀ c ∈ c0 :: cs, c < N :=
    fun c hc => List.mem_range.mp (hperm.subset hc)
  have hc0 : c0 < N := hmem c0 (List.mem_cons_self c0 cs)
  have hcall0 : (initN N).calls c0 = initCall := by simp [initN, hc0]
  have hndc := List.nodup_cons.mp hnd
  show grun (gstep (initN N) (.handle c0)) (cs.map GEv.handle) = midSt N c0 cs
  rw [gstep_handle_start (initN N) c0 (by rw [hcall0]; rfl)
    (by rw [hcall0]; rfl) rfl]
  have hv : ({ (initN N).calls c0 with
      retry := true, status := CStatus.awaitingRefresh } : CallSt)
      = { retry := true, status := .awaitingRefresh, replays := 0 } := by
    rw [hcall0]
    rfl
  rw [hv]
  rw [grun_handles_park]
  · dsimp only
    simp only [initN, midSt, midCalls]
    rw [List.nil_append, List.nil_append]
  · rfl
  · exact hndc.2
  · intro c hc
    have hne : c ≠ c0 := fun e => hndc.1 (e ▸ hc)
    have hset : setCall (initN N).calls c0
        { retry := true, status := .awaitingRefresh, replays := 0 } c
        = (initN N).calls c := setCall_other _ _ _ _ hne
    dsimp only
    rw [hset]
    have hcN : c < N := hmem c (List.mem_cons_of_mem c0 hc)
    simp [initN, hcN, initCall]

theorem grun_mid_to_post (N c0 : Nat) (cs : List Nat) (t : Nat) :
    grun (midSt N c0 cs) [.tokRead, .exchOk t, .persistDone]
      = postSt N c0 cs t := by
  have h1 : gstep (midSt N c0 cs) .tokRead
      = { midSt N c0 cs with
          tasks := [{ initiator := c0, phase := .exchanging }],
          exchCount := 1 } := by
    simp [gstep, midSt]
  have h2 : gstep { midSt N c0 cs with
      tasks := [{ initiator := c0, phase := RPhase.exchanging }],
      exchCount := 1 } (.exchOk t)
      = { midSt N c0 cs with
          tasks := [{ initiator := c0, phase := .persisting t }],
          exchCount := 1 } := by
    simp [gstep]
  have h3 : gstep { midSt N c0 cs with
      tasks := [{ initiator := c0, phase := RPhase.persisting t }],
      exchCount := 1 } .persistDone
      = postSt N c0 cs t := by
    simp [gstep, midSt, postSt, postCalls, midCalls]
  simp [grun, h1, h2, h3]

theorem grun_post_replays (N c0 : Nat) (cs : List Nat) (t : Nat)
    (hperm : (c0 :: cs).Perm (List.range N)) :
    grun (postSt N c0 cs t) ((List.range N).map GEv.replayOk)
      = { postSt N c0 cs t with
          calls := okAll (postCalls N c0 cs) (List.range N) } := by
  have hnd : (c0 :: cs).Nodup := hperm.nodup_iff.mpr (List.nodup_range N)
  have hndc := List.nodup_cons.mp hnd
  rw [grun_replayOks]
  · rfl
  · exact List.nodup_range N
  · intro c hc
    have hcin : c ∈ c0 :: cs := hperm.symm.subset hc
    show (postCalls N c0 cs c).status = .replaying
    by_cases hcc : c = c0
    · subst hcc
      unfold postCalls
      rw [setCall_self]
    · unfold postCalls
      rw [setCall_other _ _ _ _ hcc]
      have hccs : c ∈ cs := by
        rcases List.mem_cons.mp hcin with h | h
        · exact absurd h hcc
        · exact h
      rw [resolveParked_mem _ _ _ hndc.2 hccs]

theorem p1_mid (N c0 : Nat) (cs : List Nat)
    (hperm : (c0 :: cs).Perm (List.range N)) : P1 (midSt N c0 cs) := by
  constructor
  · simp [midSt, gettingCount]
  · intro c
    show (midCalls N c0 cs c).status ≠ .pend401
    unfold midCalls parkAll
    by_cases hccs : c ∈ cs
    · simp [hccs]
    · simp only [hccs, if_false]
      by_cases hcc : c = c0
      · subst hcc
        rw [setCall_self]
        simp
      · rw [setCall_other _ _ _ _ hcc]
        by_cases hcN : c < N
        · exfalso
          have : c ∈ c0 :: cs :=
            hperm.symm.subset (List.mem_range.mpr hcN)
          rcases List.mem_cons.mp this with h | h
          · exact hcc h
          · exact hccs h
        · simp [initN, hcN, idleCall]

/-! ## Claims -/

/-- C3: queue boundedness with fail-closed enqueue.  `addToQueue` first
checks the length against `OFFLINE_CONFIG.MAX_QUEUE_SIZE`; at or above the
limit it returns `false` leaving the in-memory and persisted queues
untouched (no eviction); below the limit it returns `true`, appends exactly
one record with `synced := false`, and persists the full queue — so a queue
within the bound never grows past `MAX_QUEUE_SIZE` (default 50). -/
theorem C3_queue_bounded_fail_closed (st : StoreSt) (p : Nat)
    (newId createdAt : String) :
    (OFFLINE_CONFIG.MAX_QUEUE_SIZE ≤ st.queue.length →
      addToQueue st p newId createdAt = (false, st))
    ∧ (st.queue.length < OFFLINE_CONFIG.MAX_QUEUE_SIZE →
        (addToQueue st p newId createdAt).1 = true
        ∧ (addToQueue st p newId createdAt).2.queue
            = st.queue ++
              [{ id := newId, payload := p, createdAt := createdAt,
                 synced := false, syncError := none }]
        ∧ (addToQueue st p newId createdAt).2.persisted
            = (addToQueue st p newId createdAt).2.queue)
    ∧ (st.queue.length ≤ OFFLINE_CONFIG.MAX_QUEUE_SIZE →
        (addToQueue st p newId createdAt).2.queue.length
          ≤ OFFLINE_CONFIG.MAX_QUEUE_SIZE) := by
  refine ⟨?_, ?_, ?_⟩
  · intro h
    simp [addToQueue, h]
  · intro h
    have h' : ¬ st.queue.length ≥ OFFLINE_CONFIG.MAX_QUEUE_SIZE := by omega
    simp [addToQueue, h']
  · intro h
    by_cases hful : st.queue.length ≥ OFFLINE_CONFIG.MAX_QUEUE_SIZE
    · simp [addToQueue, hful]
      exact h
    · simp [addToQueue, hful]
      omega

/-- Witness for C3 at concrete inputs: a 50-element queue rejects the 51st
enqueue unchanged, and the empty store accepts an enqueue. -/
theorem C3_queue_bounded_fail_closed_witness :
    addToQueue fullStore50 0 r1id ts0 = (false, fullStore50)
    ∧ (addToQueue initialStore 0 r1id ts0).1 = true := by
  constructor
  · exact (C3_queue_bounded_fail_closed fullStore50 0 r1id ts0).1 (by decide)
  · exact ((C3_queue_bounded_fail_closed initialStore 0 r1id ts0).2.1
      (by decide)).1

/-- C1: single-flight refresh.  (1) Safety, over every schedule of the
interceptor machine: there is never more than one outstanding refresh
exchange (indeed never more than one live refresh coroutine) — the check
and set of `isRefreshing` happen in one atomic stretch, so a second
exchange cannot start while one is pending.  (2) In the N-concurrent-401
scenario — all `N` handlers run (in any order) before anything else, and
the continuation contains no fresh 401s (`replay401`) — at most one
exchange is ever issued, whatever the interleaving of the remaining events.
(3) Completing that scenario with the successful exchange and the `N`
replays, exactly one exchange was issued and all `N` callers (the parked
ones and the initiator) resolve successfully with its result. -/
theorem C1_single_flight_refresh :
    (∀ (N : Nat) (sched : List GEv),
      exchangingCount (grun (initN N) sched) ≤ 1)
    ∧ (∀ (N c0 : Nat) (cs : List Nat) (rest : List GEv),
        (c0 :: cs).Perm (List.range N) →
        (∀ e ∈ rest, ∀ c, e ≠ GEv.replay401 c) →
        (grun (initN N) ((c0 :: cs).map GEv.handle ++ rest)).exchCount ≤ 1)
    ∧ (∀ (N c0 : Nat) (cs : List Nat) (t : Nat),
        (c0 :: cs).Perm (List.range N) →
        (grun (initN N) ((c0 :: cs).map GEv.handle
            ++ ([.tokRead, .exchOk t, .persistDone]
              ++ (List.range N).map GEv.replayOk))).exchCount = 1
        ∧ ∀ c, c < N → ((grun (initN N) ((c0 :: cs).map GEv.handle
            ++ ([.tokRead, .exchOk t, .persistDone]
              ++ (List.range N).map GEv.replayOk))).calls c).status
              = .ok) := by
  refine ⟨?_, ?_, ?_⟩
  · intro N sched
    have hwf : GWF (grun (initN N) sched) :=
      gwf_run sched (initN N) ⟨by simp [initN], by simp [initN]⟩
    calc exchangingCount (grun (initN N) sched)
        ≤ (grun (initN N) sched).tasks.length := List.length_filter_le _ _
      _ ≤ 1 := hwf.1
  · intro N c0 cs rest hperm hbenign
    rw [grun_append, grun_handles_init N c0 cs hperm]
    have hp1 := p1_run rest (midSt N c0 cs) hbenign (p1_mid N c0 cs hperm)
    have hle := hp1.1
    omega
  · intro N c0 cs t hperm
    rw [grun_append, grun_handles_init N c0 cs hperm, grun_append,
      grun_mid_to_post N c0 cs t, grun_post_replays N c0 cs t hperm]
    constructor
    · rfl
    · intro c hcN
      show (okAll (postCalls N c0 cs) (List.range N) c).status = .ok
      unfold okAll
      simp [List.mem_range.mpr hcN]

/-- Witness for C1 at `N = 2`: a concrete schedule keeps at most one
exchange outstanding, two concurrent 401s issue exactly one exchange, and
both calls resolve. -/
theorem C1_single_flight_refresh_witness :
    exchangingCount (grun (initN 2) [.handle 0, .handle 1, .tokRead]) ≤ 1
    ∧ (grun (initN 2) ((0 :: [1]).map GEv.handle ++ [])).exchCount ≤ 1
    ∧ (grun (initN 2) ((0 :: [1]).map GEv.handle
        ++ ([.tokRead, .exchOk 7, .persistDone]
          ++ (List.range 2).map GEv.replayOk))).exchCount = 1
    ∧ ((grun (initN 2) ((0 :: [1]).map GEv.handle
        ++ ([.tokRead, .exchOk 7, .persistDone]
          ++ (List.range 2).map GEv.replayOk))).calls 0).status = .ok := by
  refine ⟨C1_single_flight_refresh.1 2 [.handle 0, .handle 1, .tokRead],
    ?_, ?_, ?_⟩
  · exact C1_single_flight_refresh.2.1 2 0 [1] [] (by decide) (by simp)
  · exact (C1_single_flight_refresh.2.2 2 0 [1] 7 (by decide)).1
  · exact (C1_single_flight_refresh.2.2 2 0 [1] 7 (by decide)).2 0 (by decide)

/-- C2 (code bug): `syncAll` guarantees no mutual exclusion.  On a queue
holding one pending record, a second `syncAll` invoked while the first drain
is awaiting its delivery is not a no-op and is not deferred: both drain
passes are active at once (`activeDrains = 2`), and the single record is
handed to the delivery call twice — `syncAll` sets `isSyncing` but never
checks it.  The spec's single-flight-drain guarantee fails on this
interleaving. -/
theorem C2_concurrent_drains_bug :
    activeDrains (drun drainInit [.invoke, .invoke]) = 2
    ∧ (drun drainInit [.invoke, .invoke]).isSyncing = true
    ∧ (drun drainInit
        [.invoke, .invoke, .deliver 0 true, .deliver 1 true]).deliveries
      = [r1id, r1id] := by
  decide

/-- C9: corruption-tolerant load.  When the persisted value under
`OFFLINE_QUEUE` is absent (or empty), or present but rejected by
`JSON.parse` (the decoder returns `none`, the thrown exception being caught
inside `secureStorage.getObject`), `loadQueue` completes and leaves the
store's initial empty queue in place. -/
theorem C9_corrupt_tolerant_load (st : StoreSt)
    (parse : String → Option (List OfflineRecord)) (raw : Option String) :
    st.queue = [] →
    (∀ s, raw = some s → s.isEmpty = true ∨ parse s = none) →
    (loadQueue st parse raw).queue = [] := by
  intro hq hraw
  cases raw with
  | none => simpa [loadQueue, getObject] using hq
  | some s =>
    rcases hraw s rfl with h | h
    · simpa [loadQueue, getObject, h] using hq
    · by_cases he : s.isEmpty
      · simpa [loadQueue, getObject, he] using hq
      · simpa [loadQueue, getObject, he, h] using hq

/-- Witness for C9: loading a non-JSON raw value over the initial store
leaves the empty queue. -/
theorem C9_corrupt_tolerant_load_witness :
    (loadQueue initialStore (fun _ => none) (some badRaw)).queue = [] := by
  exact C9_corrupt_tolerant_load initialStore (fun _ => none) (some badRaw)
    rfl (fun s _ => Or.inr rfl)

/-- C4 counterexample: the claim's "including for calls that were parked on
the wait-list" clause fails.  On `c4sched`, call 1 parks during call 0's
refresh, is replayed after that refresh succeeds, receives a second 401 on
the replay — and then, because parked calls never get their `_retry` flag
set, initiates a second refresh exchange (`exchCount = 2`), is replayed a
second time (`replays = 2`) and even resolves successfully instead of
failing permanently. -/
theorem C4_parked_retry_counterexample :
    (grun (initN 2) c4sched).exchCount = 2
    ∧ ((grun (initN 2) c4sched).calls 1).replays = 2
    ∧ ((grun (initN 2) c4sched).calls 1).status = .ok := by
  decide

/-- C4 (amended): retry-once holds for the call that carries the `_retry`
flag.  (1) A 401 for a call whose `_retry` flag is set is rejected with the
authentication error as-is: no refresh coroutine is spawned, no exchange
issued, no replay — the state changes only by that call's failure.  (2) The
refresh-initiating call has its flag set at the moment it starts the
coroutine.  (3) A call parked on the wait-list keeps its flag unset (which
is why its later replay may initiate one further refresh cycle, as the
counterexample shows). -/
theorem C4_retry_once_flagged :
    (∀ (s : GSt) (c : Nat),
      (s.calls c).status = .pend401 → (s.calls c).retry = true →
      gstep s (.handle c)
        = { s with
            calls := setCall s.calls c
              { s.calls c with status := .failed .auth } })
    ∧ (∀ (s : GSt) (c : Nat),
        (s.calls c).status = .pend401 → (s.calls c).retry = false →
        s.isRefreshing = false →
        ((gstep s (.handle c)).calls c).retry = true
        ∧ (gstep s (.handle c)).tasks
            = s.tasks ++ [{ initiator := c, phase := .gettingTok }])
    ∧ (∀ (s : GSt) (c : Nat),
        (s.calls c).status = .pend401 → (s.calls c).retry = false →
        s.isRefreshing = true →
        ((gstep s (.handle c)).calls c).retry = false
        ∧ ((gstep s (.handle c)).calls c).status = .parked
        ∧ (gstep s (.handle c)).exchCount = s.exchCount
        ∧ (gstep s (.handle c)).tasks = s.tasks) := by
  refine ⟨?_, ?_, ?_⟩
  · intro s c hst hr
    simp [gstep, hst, hr]
  · intro s c hst hr hif
    simp [gstep, hst, hr, hif, setCall_self]
  · intro s c hst hr hif
    simp [gstep, hst, hr, hif, setCall_self]

/-- C5: session invalidation on refresh failure.  Whether the refresh token
is absent from storage (the coroutine is at `gettingTok` and `refreshTok` is
`none`) or the exchange is rejected by the backend (`exchFail .auth` while
`exchanging`), the catch block removes both persisted tokens, rejects every
call parked on the wait-list with the authentication error, and the
initiating call fails with that same authentication error — no further
exchange is issued (`exchCount` unchanged) and the initiator is not replayed
(`replays` unchanged). -/
theorem C5_session_invalidation :
    (∀ (s : GSt) (i : Nat) (ts : List RTask),
      s.tasks = { initiator := i, phase := .gettingTok } :: ts →
      s.refreshTok = none →
      (grun s [.tokRead, .clearDone1, .clearDone2]).accessTok = none
      ∧ (grun s [.tokRead, .clearDone1, .clearDone2]).refreshTok = none
      ∧ (grun s [.tokRead, .clearDone1, .clearDone2]).isRefreshing = false
      ∧ (grun s [.tokRead, .clearDone1, .clearDone2]).tasks = ts
      ∧ (∀ c ∈ s.failedQueue,
          ((grun s [.tokRead, .clearDone1, .clearDone2]).calls c).status
            = .failed .auth)
      ∧ ((grun s [.tokRead, .clearDone1, .clearDone2]).calls i).status
          = .failed .auth
      ∧ (grun s [.tokRead, .clearDone1, .clearDone2]).exchCount = s.exchCount
      ∧ ((grun s [.tokRead, .clearDone1, .clearDone2]).calls i).replays
          = (s.calls i).replays)
    ∧ (∀ (s : GSt) (i : Nat) (ts : List RTask),
      s.tasks = { initiator := i, phase := .exchanging } :: ts →
      (grun s [.exchFail .auth, .clearDone1, .clearDone2]).accessTok = none
      ∧ (grun s [.exchFail .auth, .clearDone1, .clearDone2]).refreshTok = none
      ∧ (grun s [.exchFail .auth, .clearDone1, .clearDone2]).isRefreshing
          = false
      ∧ (grun s [.exchFail .auth, .clearDone1, .clearDone2]).tasks = ts
      ∧ (∀ c ∈ s.failedQueue,
          ((grun s [.exchFail .auth, .clearDone1, .clearDone2]).calls c).status
            = .failed .auth)
      ∧ ((grun s [.exchFail .auth, .clearDone1, .clearDone2]).calls i).status
          = .failed .auth
      ∧ (grun s [.exchFail .auth, .clearDone1, .clearDone2]).exchCount
          = s.exchCount
      ∧ ((grun s [.exchFail .auth, .clearDone1, .clearDone2]).calls i).replays
          = (s.calls i).replays) := by
  constructor
  · intro s i ts hT hR
    have h1 : gstep s .tokRead
        = { s with
            calls := rejectParked s.calls s.failedQueue .auth,
            failedQueue := [],
            tasks := { initiator := i, phase := .clearing1 .auth } :: ts } := by
      simp [gstep, hT, hR]
    have hg : grun s [.tokRead, .clearDone1, .clearDone2]
        = grun (gstep s .tokRead) [.clearDone1, .clearDone2] := rfl
    rw [hg, h1, clearTail _ i .auth ts rfl]
    dsimp only
    refine ⟨rfl, rfl, rfl, rfl, ?_, ?_, rfl, ?_⟩
    · intro c hc
      by_cases hci : c = i
      · subst hci; rw [setCall_self]
      · rw [setCall_other _ _ _ _ hci,
          rejectParked_mem _ _ _ _ hc]
    · rw [setCall_self]
    · rw [setCall_self]
      show (rejectParked s.calls s.failedQueue .auth i).replays
        = (s.calls i).replays
      by_cases hiq : i ∈ s.failedQueue
      · rw [rejectParked_mem _ _ _ _ hiq]
      · rw [rejectParked_not_mem _ _ _ _ hiq]
  · intro s i ts hT
    have h1 : gstep s (.exchFail .auth)
        = { s with
            calls := rejectParked s.calls s.failedQueue .auth,
            failedQueue := [],
            tasks := { initiator := i, phase := .clearing1 .auth } :: ts } := by
      simp [gstep, hT]
    have hg : grun s [.exchFail .auth, .clearDone1, .clearDone2]
        = grun (gstep s (.exchFail .auth)) [.clearDone1, .clearDone2] := rfl
    rw [hg, h1, clearTail _ i .auth ts rfl]
    dsimp only
    refine ⟨rfl, rfl, rfl, rfl, ?_, ?_, rfl, ?_⟩
    · intro c hc
      by_cases hci : c = i
      · subst hci; rw [setCall_self]
      · rw [setCall_other _ _ _ _ hci,
          rejectParked_mem _ _ _ _ hc]
    · rw [setCall_self]
    · rw [setCall_self]
      show (rejectParked s.calls s.failedQueue .auth i).replays
        = (s.calls i).replays
      by_cases hiq : i ∈ s.failedQueue
      · rw [rejectParked_mem _ _ _ _ hiq]
      · rw [rejectParked_not_mem _ _ _ _ hiq]

/-- Witness for C5 at a concrete mid-refresh state: the backend rejects the
exchange; the parked call 1 and the initiator 0 both end in the
authentication failure and both tokens are cleared. -/
theorem C5_session_invalidation_witness :
    (grun c5wSt [.exchFail .auth, .clearDone1, .clearDone2]).accessTok = none
    ∧ (grun c5wSt [.exchFail .auth, .clearDone1, .clearDone2]).refreshTok
        = none
    ∧ ((grun c5wSt [.exchFail .auth, .clearDone1, .clearDone2]).calls 1).status
        = .failed .auth
    ∧ ((grun c5wSt [.exchFail .auth, .clearDone1, .clearDone2]).calls 0).status
        = .failed .auth := by
  have h := C5_session_invalidation.2 c5wSt 0 [] rfl
  exact ⟨h.1, h.2.1, h.2.2.2.2.1 1 (by decide), h.2.2.2.2.2.1⟩

set_option maxRecDepth 40000 in
/-- C8 counterexample: the claim's parenthetical "(including when values are
themselves nested objects)" fails.  `c8p1` and `c8p2` hold the same
key/value pairs — the nested object under key `a` has fields `x ↦ 1, y ↦ 2`
in both, inserted in different orders (witnessed by the permutation) — yet
`generateIntegrityHash` produces different tokens, because only the
top-level keys are sorted while `JSON.stringify` serializes nested objects
in insertion order. -/
theorem C8_nested_order_counterexample :
    c8fields1.Perm c8fields2
    ∧ generateIntegrityHash renderFlat c8p1
        ≠ generateIntegrityHash renderFlat c8p2 := by
  constructor
  · decide
  · decide

/-- C8 (amended): the integrity token is insensitive to the insertion order
of the *top-level* keys: payloads holding the same top-level key/value
pairs (values compared as-is, i.e. with identical serialized form) yield
the same token, for any value serialization; and the token is a pure
function of the payload (deterministic under re-serialization).  Nested
object values are serialized in their own insertion order, so their key
order does affect the token (see the counterexample). -/
theorem C8_toplevel_order_independent {V : Type} (render : V → String)
    (ps1 ps2 : List (String × V)) (hnd : (ps1.map Prod.fst).Nodup)
    (hp : ps1.Perm ps2) :
    generateIntegrityHash render ps1 = generateIntegrityHash render ps2 := by
  have h : integrityData render ps1 = integrityData render ps2 := by
    unfold integrityData
    rw [sortedKeys_perm_eq ps1 ps2 hp]
    have hfun :
        (fun k => (assoc k ps1).map
          fun v => dquote ++ k ++ dquote ++ colonStr ++ render v)
        = fun k => (assoc k ps2).map
            fun v => dquote ++ k ++ dquote ++ colonStr ++ render v := by
      funext k
      rw [assoc_perm_eq ps1 ps2 hnd hp k]
    rw [hfun]
  unfold generateIntegrityHash
  rw [h]

/-- Witness for C8's amended theorem: swapping the insertion order of two
top-level integer-valued keys leaves the token unchanged. -/
theorem C8_toplevel_order_independent_witness :
    generateIntegrityHash renderInt c8w1 = generateIntegrityHash renderInt c8w2 :=
  C8_toplevel_order_independent renderInt c8w1 c8w2 (by decide) (by decide)

/-- Witness for C4's amended theorem at concrete states. -/
theorem C4_retry_once_flagged_witness :
    gstep c4wSt (.handle 0)
      = { c4wSt with
          calls := setCall c4wSt.calls 0
            { c4wSt.calls 0 with status := .failed .auth } }
    ∧ ((gstep (initN 1) (.handle 0)).calls 0).retry = true
    ∧ ((gstep c4pSt (.handle 2)).calls 2).retry = false := by
  refine ⟨?_, ?_, ?_⟩
  · exact C4_retry_once_flagged.1 c4wSt 0 (by decide) (by decide)
  · exact (C4_retry_once_flagged.2.1 (initN 1) 0 (by decide) (by decide)
      (by decide)).1
  · exact (C4_retry_once_flagged.2.2 c4pSt 2 (by decide) (by decide)
      (by decide)).1

/-- C6: FIFO drain with per-item error isolation.  One `syncAll` pass hands
exactly the not-yet-synced records to the delivery call, in queue insertion
order (the attempt trace equals the pending sub-sequence of the queue),
regardless of which deliveries fail — so one record's failure never
prevents later records from being attempted; the returned pair counts the
successes and the failures of the pass; and (for duplicate-free ids) each
entry of the updated queue is its old value with `synced := true` on
success, `syncError := msg` on failure, untouched when already synced. -/
theorem C6_fifo_drain_isolation (d : Deliver) (q : List OfflineRecord) :
    (syncAllQueue d q).2.2.2
        = (q.filter (fun r => !r.synced)).map (fun r => r.id)
    ∧ (syncAllQueue d q).2.1
        = (q.filter (fun r => !r.synced)).countP (isDelivOk d)
    ∧ (syncAllQueue d q).2.2.1
        = (q.filter (fun r => !r.synced)).countP (fun r => !isDelivOk d r)
    ∧ ((q.map (fun r => r.id)).Nodup →
        (syncAllQueue d q).1 = q.map (sfun d)) :=
  ⟨(syncAllQueue_counts d q).2.2, (syncAllQueue_counts d q).1,
    (syncAllQueue_counts d q).2.1,
    fun hnd => syncAllQueue_map_expected d q hnd⟩

/-- Witness for C6 on a concrete queue and oracle: records `b` and `c` are
attempted in order, one succeeds and one fails, and the queue is updated
entrywise. -/
theorem C6_fifo_drain_isolation_witness :
    (syncAllQueue wDeliver wQ).2.2.2 = [kb, kx]
    ∧ (syncAllQueue wDeliver wQ).2.1 = 1
    ∧ (syncAllQueue wDeliver wQ).2.2.1 = 1
    ∧ (syncAllQueue wDeliver wQ).1 = wQ.map (sfun wDeliver) := by
  have h := C6_fifo_drain_isolation wDeliver wQ
  refine ⟨?_, ?_, ?_, h.2.2.2 (by decide)⟩
  · rw [h.1]; decide
  · rw [h.2.1]; decide
  · rw [h.2.2.1]; decide

/-- C7: the `synced` flag is monotone.  (1) Under any sequence of enqueue /
drain / compaction operations with fresh enqueued ids, an event whose
`synced` flag is `true` never shows `false` again (it either stays `true`
or is removed by compaction, so the flag flips `false → true` at most
once).  (2) A drain preserves every entry's id and never resets a `true`
flag.  (3) Recording a sync error on a failing entry leaves its `synced`
flag `false` and only sets `syncError`.  (4) Compaction removes exactly the
`synced = true` entries and keeps the unsynced ones as-is. -/
theorem C7_synced_monotone :
    (∀ (q : List OfflineRecord) (ops : List QOp) (i : String),
      (q.map (fun r => r.id)).Nodup → WFOps q ops = true →
      (∀ op ∈ ops, enqIdOf op ≠ some i) →
      lookupSynced i q = some true →
      lookupSynced i (applyOps q ops) ≠ some false)
    ∧ (∀ (d : Deliver) (q : List OfflineRecord) (j : Nat)
        (r r' : OfflineRecord),
        q[j]? = some r → (syncAllQueue d q).1[j]? = some r' →
        r'.id = r.id ∧ (r.synced = true → r'.synced = true))
    ∧ (∀ (d : Deliver) (q : List OfflineRecord) (j : Nat) (r : OfflineRecord)
        (m : String),
        (q.map (fun r => r.id)).Nodup → q[j]? = some r → r.synced = false →
        d r = .error m →
        (syncAllQueue d q).1[j]? = some { r with syncError := some m })
    ∧ (∀ q : List OfflineRecord,
        (∀ r ∈ q, r.synced = false → r ∈ q.filter (fun r => !r.synced))
        ∧ ∀ r ∈ q.filter (fun r => !r.synced), r ∈ q ∧ r.synced = false) := by
  refine ⟨?_, ?_, ?_, ?_⟩
  · intro q ops i hnd hwf hops h
    exact lookupSynced_mono_ops i ops q hnd hwf hops h
  · intro d q j r r' hr hr'
    have hpw := syncAllQueue_pointwiseOK d q j
    constructor
    · have h1 := hpw.1
      rw [hr, hr'] at h1
      simpa using h1
    · intro hsy
      have h2 := hpw.2 (by rw [hr]; simp [hsy])
      rw [hr'] at h2
      simpa using h2
  · intro d q j r m hnd hr hsy hd
    rw [syncAllQueue_map_expected d q hnd]
    rw [List.getElem?_map, hr]
    simp only [Option.map_some', Option.some.injEq]
    simp [sfun, hsy, applyOutcome, hd]
  · intro q
    constructor
    · intro r hr hs
      exact List.mem_filter.mpr ⟨hr, by simp [hs]⟩
    · intro r hr
      exact ⟨(List.mem_filter.mp hr).1,
        by simpa using (List.mem_filter.mp hr).2⟩

/-- Witness for C7 at concrete inputs: a synced record compacted away never
reads `false` again; the drain maps `b` to its synced copy; the failing
record `x` gets only its error recorded; compaction facts on the concrete
queue. -/
theorem C7_synced_monotone_witness :
    lookupSynced ka (applyOps [wRecA] [.compact]) ≠ some false
    ∧ ({ wRecB with synced := true } : OfflineRecord).id = wRecB.id
    ∧ (syncAllQueue wDeliver wQ).1[2]?
        = some { wRecC with syncError := some defaultSyncError }
    ∧ (wRecB ∈ wQ.filter (fun r => !r.synced)) := by
  refine ⟨?_, ?_, ?_, ?_⟩
  · exact C7_synced_monotone.1 [wRecA] [.compact] ka (by decide) (by decide)
      (by
        intro op hop
        rw [List.mem_singleton.mp hop]
        simp [enqIdOf])
      (by decide)
  · exact (C7_synced_monotone.2.1 wDeliver wQ 1 wRecB
      { wRecB with synced := true } (by decide) (by decide)).1.symm ▸ rfl
  · exact C7_synced_monotone.2.2.1 wDeliver wQ 2 wRecC defaultSyncError
      (by decide) (by decide) (by decide) rfl
  · exact (C7_synced_monotone.2.2.2 wQ).1 wRecB (by decide) (by decide)

/-- C10: order preservation across all queue operations.  Enqueue leaves
the existing prefix unchanged in place and appends the new record at the
tail; a drain updates entries in place (every position keeps its id, and
the length is unchanged — no reordering); compaction keeps the survivors as
a sub-sequence in their original relative order; and each mutating
operation persists exactly its resulting in-memory queue, so the order
survives the persistence round-trip. -/
theorem C10_order_preservation :
    (∀ (st : StoreSt) (p : Nat) (newId createdAt : String),
      ((addToQueue st p newId createdAt).2.queue.take st.queue.length)
        = st.queue)
    ∧ (∀ (st : StoreSt) (p : Nat) (newId createdAt : String),
        st.queue.length < OFFLINE_CONFIG.MAX_QUEUE_SIZE →
        (addToQueue st p newId createdAt).2.queue
          = st.queue ++
            [{ id := newId, payload := p, createdAt := createdAt,
               synced := false, syncError := none }])
    ∧ (∀ (d : Deliver) (q : List OfflineRecord) (j : Nat),
        ((syncAllQueue d q).1[j]?).map (fun r => r.id)
          = (q[j]?).map (fun r => r.id))
    ∧ (∀ (d : Deliver) (q : List OfflineRecord),
        (syncAllQueue d q).1.length = q.length)
    ∧ (∀ st : StoreSt, (clearSynced st).queue.Sublist st.queue)
    ∧ (∀ (st : StoreSt) (p : Nat) (newId createdAt : String),
        (addToQueue st p newId createdAt).1 = true →
        (addToQueue st p newId createdAt).2.persisted
          = (addToQueue st p newId createdAt).2.queue)
    ∧ (∀ (d : Deliver) (st : StoreSt),
        (st.queue.filter (fun r => !r.synced)).isEmpty = false →
        (syncAllStore d st).1.persisted = (syncAllStore d st).1.queue)
    ∧ (∀ st : StoreSt, (clearSynced st).persisted = (clearSynced st).queue) := by
  refine ⟨?_, ?_, ?_, ?_, ?_, ?_, ?_, ?_⟩
  · intro st p newId createdAt
    unfold addToQueue
    by_cases hful : st.queue.length ≥ OFFLINE_CONFIG.MAX_QUEUE_SIZE
    · simp [hful, List.take_length]
    · simp only [hful, ite_false]
      exact List.take_left st.queue _
  · intro st p newId createdAt h
    have h' : ¬ st.queue.length ≥ OFFLINE_CONFIG.MAX_QUEUE_SIZE := by omega
    simp [addToQueue, h']
  · intro d q j
    exact (syncAllQueue_pointwiseOK d q j).1
  · intro d q
    exact syncAllQueue_length d q
  · intro st
    exact List.filter_sublist st.queue
  · intro st p newId createdAt h
    unfold addToQueue at h ⊢
    by_cases hful : st.queue.length ≥ OFFLINE_CONFIG.MAX_QUEUE_SIZE
    · simp [hful] at h
    · simp [hful]
  · intro d st h
    unfold syncAllStore
    rw [if_neg (by simp [h])]
  · intro st
    rfl

/-- Witness for C10 at concrete inputs. -/
theorem C10_order_preservation_witness :
    ((addToQueue initialStore 0 r1id ts0).2.queue.take 0) = []
    ∧ (addToQueue initialStore 0 r1id ts0).2.queue
        = [{ id := r1id, payload := 0, createdAt := ts0, synced := false,
             syncError := none }]
    ∧ (syncAllStore wDeliver { queue := wQ, persisted := wQ }).1.persisted
        = (syncAllStore wDeliver { queue := wQ, persisted := wQ }).1.queue := by
  refine ⟨?_, ?_, ?_⟩
  · exact C10_order_preservation.1 initialStore 0 r1id ts0
  · simpa using C10_order_preservation.2.1 initialStore 0 r1id ts0 (by decide)
  · exact C10_order_preservation.2.2.2.2.2.2.1 wDeliver
      { queue := wQ, persisted := wQ } (by decide)

end Attendance
